import Mathlib

/-!
# data-cleaner: batch deletion of stale rows

A shallow embedding of the Go service: the entities (`internal/models/entities`),
the PostgreSQL repository (`internal/repository/postgres`) and the cleanup use
case (`internal/usecase`), followed by the properties proved about them.

Conventions of the embedding.

* A Go `int` is an `Int` in the range of 64 bits; the additions of the code wrap around
  at the bounds of that range (`wrapInt`), and a `time.Duration` stops at them (`Since`).
* A Go `error` is a value of `GoError`; `nil` is `none`.
* Calls that reach outside the process (the store, the clock, the context) are
  functions on an explicit world state; the use case is generic in that state, so
  every deterministic behaviour of the collaborators is covered.
* `CleanTable` contains an unbounded `for` loop; the embedding takes the maximal
  number of iterations as `fuel` and answers `none` when it is used up.
* Logging through zap has no effect on any returned value and is left out.
* The Unicode case tables behind `strings.ToLower` are a parameter `caseTable`.
-/

namespace DataCleaner

/-! ## Errors and time -/

/-- Go error values, by dynamic type: `entities.DomainError`, the `*errors.errorString`
that `fmt.Errorf` builds from a format without `%w`, the `*fmt.wrapError` it builds
from a format with `%w` (the whole text and the wrapped error), and any other error
handed in by a collaborator (driver, context). -/
inductive GoError where
  | DomainError (Message : String)
  | errorString (s : String)
  | wrapError (msg : String) (err : GoError)
  | other (text : String)
  deriving DecidableEq, Repr

/-- The method `Error()` of each error type. -/
def GoError.Error : GoError → String
  | .DomainError m => m
  | .errorString s => s
  | .wrapError msg _ => msg
  | .other t => t

/-- The call `fmt.Errorf(pre + "%w", err)`: a `*fmt.wrapError` with the formatted text
and the wrapped error. -/
def Errorf_w (pre : String) (err : GoError) : GoError :=
  .wrapError (pre ++ err.Error) err

/-- The function `NewDomainError`. -/
def NewDomainError (message : String) : GoError := .DomainError message

def ErrEmptyTableName : GoError := NewDomainError "table name cannot be empty"
def ErrInvalidDate : GoError := NewDomainError "invalid date specified"
def ErrInvalidBatchSize : GoError := NewDomainError "batch size must be positive"

/-- The value of a Go `int` (64 bits, two's complement) after an arithmetic operation whose
exact result is `x`: `x` wrapped into the range from `-2^63` to `2^63 - 1`. -/
def wrapInt (x : Int) : Int := (x + 2 ^ 63) % 2 ^ 64 - 2 ^ 63

/-- The call `time.Since(startTime)` when the clock reads `now`, both readings of the
monotonic clock in nanoseconds: the difference as a `time.Duration`, which stops at the
bounds of 64 bits instead of wrapping. -/
def Since (now startTime : Int) : Int :=
  if now - startTime < -2 ^ 63 then -2 ^ 63
  else if 2 ^ 63 - 1 < now - startTime then 2 ^ 63 - 1
  else now - startTime

/-- A `time.Time` instant: seconds since January 1, year 1 00:00:00 UTC, and the
nanoseconds within the second. -/
structure Time where
  sec : Int
  nsec : Int
  deriving DecidableEq, Repr

/-- The method `Time.IsZero`: the instant is January 1, year 1, 00:00:00 UTC. -/
def Time.IsZero (t : Time) : Bool := t.sec == 0 && t.nsec == 0

/-! ## Entities -/

/-- The struct `entities.CleanupRequest`. -/
structure CleanupRequest where
  TableName : String
  BeforeDate : Time
  BatchSize : Int
  deriving DecidableEq, Repr

/-- The struct `entities.CleanupResult`; `ElapsedTime` is a `time.Duration` in nanoseconds. -/
structure CleanupResult where
  TableName : String
  RowsDeleted : Int
  ElapsedTime : Int
  Status : String
  ErrorMessage : String
  deriving DecidableEq, Repr

/-- The method `CleanupRequest.Validate`. -/
def CleanupRequest.Validate (r : CleanupRequest) : Option GoError :=
  if r.TableName == "" then some ErrEmptyTableName
  else if r.BeforeDate.IsZero then some ErrInvalidDate
  else if r.BatchSize ≤ 0 then some ErrInvalidBatchSize
  else none

/-! ## Table name validator (`postgres/cleaner.go`) -/

/-- The condition of the rune loop of `isValidTableName`. -/
def allowedRune (char : Char) : Bool :=
  (decide ('a' ≤ char) && decide (char ≤ 'z')) ||
  (decide ('A' ≤ char) && decide (char ≤ 'Z')) ||
  (decide ('0' ≤ char) && decide (char ≤ '9')) ||
  char == '_'

/-- The first loop of `isValidTableName`: `return false` at the first rune outside the
allowed classes. -/
def runesAllowed : List Char → Bool
  | [] => true
  | char :: rest => if !allowedRune char then false else runesAllowed rest

/-- The mapping `unicode.ToLower` on an ASCII rune. -/
def lowerASCII (c : Char) : Char :=
  if 'A' ≤ c ∧ c ≤ 'Z' then Char.ofNat (c.toNat + 32) else c

/-- The mapping `unicode.ToLower`; `caseTable` stands for the Unicode case tables of the
Go runtime, which decide the image of the runes from `utf8.RuneSelf` on. -/
def lowerRune (caseTable : Char → Char) (c : Char) : Char :=
  if c.toNat < 128 then lowerASCII c else caseTable c

/-- The function `strings.ToLower`. -/
def ToLower (caseTable : Char → Char) (s : String) : String :=
  String.mk (s.data.map (lowerRune caseTable))

/-- Does `word` start the text `s`. -/
def HasPrefix : List Char → List Char → Bool
  | _, [] => true
  | [], _ :: _ => false
  | a :: s, b :: word => a == b && HasPrefix s word

/-- Substring search over the characters of `s`, position by position. -/
def containsAt : List Char → List Char → Bool
  | [], word => HasPrefix [] word
  | a :: s, word => HasPrefix (a :: s) word || containsAt s word

/-- The function `strings.Contains`. -/
def Contains (s substr : String) : Bool := containsAt s.data substr.data

/-- The slice `forbidden` of `isValidTableName`. -/
def forbidden : List String := [";", "--", "/*", "*/", "drop", "delete", "insert", "update"]

/-- The second loop of `isValidTableName`: `return false` at the first forbidden word
contained in the lower-cased name. -/
def noForbiddenWord (nameLower : String) : List String → Bool
  | [] => true
  | word :: rest => if Contains nameLower word then false else noForbiddenWord nameLower rest

/-- The method `isValidTableName`. -/
def isValidTableName (caseTable : Char → Char) (name : String) : Bool :=
  if !runesAllowed name.data then false
  else noForbiddenWord (ToLower caseTable name) forbidden

/-! ## The store driver as seen by the repository -/

/-- A bound query argument. -/
inductive SqlArg where
  | text (s : String)
  | bigint (n : Int)
  deriving DecidableEq, Repr

/-- The driver calls the repository makes, in the order it makes them. -/
inductive DbCall where
  | GetContext (query : String) (arg : SqlArg)
  | Get (query : String) (arg : SqlArg)
  | BeginTxx
  | QueryxContext (query : String) (beforeDate : Time) (batchSize : Int)
  | RowsClose
  | Commit
  | Rollback
  deriving DecidableEq, Repr

/-- The `*sqlx.DB` handle (and the transaction it opens) over a store state `δ`.
`GetContext` and `Get` scan one boolean; `QueryxContext` answers with the number of rows
the cursor yields before `Next` reports false and with the value of `rows.Err()`. -/
structure Db (δ : Type) where
  GetContext : String → SqlArg → δ → Except GoError Bool × δ
  Get : String → SqlArg → δ → Except GoError Bool × δ
  BeginTxx : δ → Option GoError × δ
  QueryxContext : String → Time → Int → δ → Except GoError (Nat × Option GoError) × δ
  Commit : δ → Option GoError × δ
  Rollback : δ → δ

/-- The world of the repository: the store and the log of driver calls made so far. -/
structure PgState (δ : Type) where
  db : δ
  log : List DbCall

/-- The statement text `fmt.Sprintf` builds in `DeleteBatch`. -/
def deleteQuery (tableName : String) : String :=
  "\n\t\tWITH rows_to_delete AS (\n\t\t\tSELECT id FROM " ++ tableName ++
  "\n\t\t\tWHERE created_at < $1\n\t\t\tORDER BY created_at\n\t\t\tLIMIT $2" ++
  "\n\t\t\tFOR UPDATE SKIP LOCKED\n\t\t)\n\t\tDELETE FROM " ++ tableName ++
  "\n\t\tWHERE id IN (SELECT id FROM rows_to_delete)\n\t\tRETURNING id;\n\t"

def tableExistsQuery : String :=
  "\n\t\tSELECT EXISTS (\n\t\t\tSELECT FROM information_schema.tables \n\t\t\tWHERE table_schema = " ++
  "\x27public\x27 \n\t\t\tAND table_name = $1\n\t\t)\n\t"

def indexExistsQuery : String :=
  "\n\t\tSELECT EXISTS (\n\t\t\tSELECT FROM pg_indexes\n\t\t\tWHERE tablename = $1\n\t\t\tAND indexdef LIKE " ++
  "\x27%created_at%\x27\n\t\t)\n\t"

/-- The 64-bit FNV-1a hash (`hash/fnv`, `New64a`, `Write`, `Sum64`). -/
def fnv64a (bytes : List Nat) : Nat :=
  bytes.foldl (fun h b => ((h ^^^ b) * 1099511628211) % 2 ^ 64) 14695981039346656037

/-- The method `generateLockID`: the hash of the name, converted `uint64` to `int64`. -/
def generateLockID (tableName : String) : Int :=
  let u := fnv64a (tableName.toUTF8.toList.map UInt8.toNat)
  if u < 2 ^ 63 then (u : Int) else (u : Int) - 2 ^ 64

/-! ## The repository (`postgres/cleaner.go`) -/

/-- The method `postgresRepository.DeleteBatch`. The deferred calls run at return, last
registered first: `rows.Close()`, then the rollback when `err` is set. The counter `count`
is a Go `int`, incremented once for each row. -/
def DeleteBatch {δ : Type} (caseTable : Char → Char) (db : Db δ) (tableName : String)
    (beforeDate : Time) (batchSize : Int) (s : PgState δ) : (Int × Option GoError) × PgState δ :=
  if !isValidTableName caseTable tableName then
    ((0, some (.errorString ("invalid table name: " ++ tableName))), s)
  else
    let query := deleteQuery tableName
    let (berr, d1) := db.BeginTxx s.db
    let log1 := s.log ++ [DbCall.BeginTxx]
    match berr with
    | some err => ((0, some (Errorf_w "begin transaction: " err)), ⟨d1, log1⟩)
    | none =>
      let (q, d2) := db.QueryxContext query beforeDate batchSize d1
      let log2 := log1 ++ [DbCall.QueryxContext query beforeDate batchSize]
      match q with
      | .error err =>
        ((0, some (Errorf_w "execute delete query: " err)),
          ⟨db.Rollback d2, log2 ++ [DbCall.Rollback]⟩)
      | .ok (count, rowsErr) =>
        match rowsErr with
        | some err =>
          ((0, some (Errorf_w "process result rows: " err)),
            ⟨db.Rollback d2, log2 ++ [DbCall.RowsClose, DbCall.Rollback]⟩)
        | none =>
          let (cerr, d3) := db.Commit d2
          match cerr with
          | some err =>
            ((0, some (Errorf_w "commit transaction: " err)),
              ⟨db.Rollback d3, log2 ++ [DbCall.Commit, DbCall.RowsClose, DbCall.Rollback]⟩)
          | none => ((wrapInt count, none), ⟨d3, log2 ++ [DbCall.Commit, DbCall.RowsClose]⟩)

/-- The closure `unlock` built by `TryAcquireLock`: one `Get`, whose failure is only logged. -/
def unlockAction {δ : Type} (db : Db δ) (lockID : Int) (s : PgState δ) : PgState δ :=
  let q := "SELECT pg_advisory_unlock($1)"
  ⟨(db.Get q (.bigint lockID) s.db).2, s.log ++ [DbCall.Get q (.bigint lockID)]⟩

/-- The method `postgresRepository.TryAcquireLock`. Where Go returns a nil function (it is
never called then) the embedding returns the identity. -/
def TryAcquireLock {δ : Type} (db : Db δ) (tableName : String) (s : PgState δ) :
    (Bool × (PgState δ → PgState δ) × Option GoError) × PgState δ :=
  let lockID := generateLockID tableName
  let q := "SELECT pg_try_advisory_lock($1)"
  let (r, d1) := db.GetContext q (.bigint lockID) s.db
  let s1 : PgState δ := ⟨d1, s.log ++ [DbCall.GetContext q (.bigint lockID)]⟩
  match r with
  | .error err => ((false, id, some (Errorf_w "acquire advisory lock: " err)), s1)
  | .ok acquired =>
    if !acquired then ((false, id, none), s1)
    else ((true, unlockAction db lockID, none), s1)

/-- The method `postgresRepository.ValidateTable`. -/
def ValidateTable {δ : Type} (db : Db δ) (tableName : String) (s : PgState δ) :
    Option GoError × PgState δ :=
  let (r1, d1) := db.GetContext tableExistsQuery (.text tableName) s.db
  let log1 := s.log ++ [DbCall.GetContext tableExistsQuery (.text tableName)]
  match r1 with
  | .error err => (some (Errorf_w "check table existence: " err), ⟨d1, log1⟩)
  | .ok found =>
    if !found then
      (some (.errorString ("table " ++ tableName ++ " does not exist")), ⟨d1, log1⟩)
    else
      let (r2, d2) := db.GetContext indexExistsQuery (.text tableName) d1
      let log2 := log1 ++ [DbCall.GetContext indexExistsQuery (.text tableName)]
      match r2 with
      | .error err => (some (Errorf_w "check index existence: " err), ⟨d2, log2⟩)
      | .ok _ => (none, ⟨d2, log2⟩)

/-! ## The use case (`usecase/cleaner.go`) -/

/-- The interface `ports.CleanerRepository` over a world state `σ`. The release action
that `TryAcquireLock` hands back is a step on the world; a gateway that answers
`acquired = true` hands back a function that can be called, and the function of the other
answers is never called. -/
structure CleanerRepository (σ : Type) where
  DeleteBatch : String → Time → Int → σ → (Int × Option GoError) × σ
  TryAcquireLock : String → σ → (Bool × (σ → σ) × Option GoError) × σ
  ValidateTable : String → σ → Option GoError × σ

/-- What `CleanTable` reads besides the repository: the clock (`time.Now`, `time.Since`,
in nanoseconds) and the `select` between `time.After(100ms)` and `ctx.Done()`, which
answers `none` when the timer branch runs and `some ctx.Err()` when the context branch
runs. -/
structure Runtime (σ : Type) where
  Now : σ → Int × σ
  Pause : σ → Option GoError × σ

/-- One entry of the trace of a run: a gateway call with its arguments and its answer,
or the invocation of the release action. -/
inductive Call where
  | ValidateTable (tableName : String) (err : Option GoError)
  | TryAcquireLock (tableName : String) (acquired : Bool) (err : Option GoError)
  | DeleteBatch (tableName : String) (beforeDate : Time) (batchSize : Int)
      (deleted : Int) (err : Option GoError)
  | unlock
  deriving DecidableEq, Repr

/-- What a call of `CleanTable` leaves behind: the two returned values, the trace of
gateway calls and the world after the call. -/
structure Run (σ : Type) where
  result : Option CleanupResult
  err : Option GoError
  trace : List Call
  world : σ

/-- The value of `result` when the loop of `CleanTable` starts. -/
def inProgress (req : CleanupRequest) : CleanupResult :=
  { TableName := req.TableName, Status := "in_progress", RowsDeleted := 0,
    ElapsedTime := 0, ErrorMessage := "" }

/-- The `for` loop of `CleanTable` up to the `return` that ends it, with at most `fuel`
iterations; `tr` is the trace so far. The deferred `cancel()` calls only free timers. -/
def deleteLoop {σ : Type} (repo : CleanerRepository σ) (rt : Runtime σ)
    (req : CleanupRequest) (startTime : Int) :
    Nat → Int → CleanupResult → List Call → σ → Option (Run σ)
  | 0, _, _, _, _ => none
  | fuel + 1, totalDeleted, result, tr, s =>
    let ((deleted, err), s1) := repo.DeleteBatch req.TableName req.BeforeDate req.BatchSize s
    let tr1 := tr ++ [Call.DeleteBatch req.TableName req.BeforeDate req.BatchSize deleted err]
    match err with
    | some e =>
      let (now, s2) := rt.Now s1
      some ⟨some { result with
                    Status := "failed", ErrorMessage := e.Error, ElapsedTime := Since now startTime },
            some (Errorf_w "batch deletion failed: " e), tr1, s2⟩
    | none =>
      let totalDeleted := wrapInt (totalDeleted + deleted)
      if deleted < req.BatchSize then
        let (now, s2) := rt.Now s1
        some ⟨some { result with
                      Status := "completed", RowsDeleted := totalDeleted,
                      ElapsedTime := Since now startTime },
              none, tr1, s2⟩
      else
        let (done, s2) := rt.Pause s1
        match done with
        | some ctxErr =>
          let (now, s3) := rt.Now s2
          some ⟨some { result with
                        Status := "canceled", RowsDeleted := totalDeleted,
                        ElapsedTime := Since now startTime },
                some ctxErr, tr1, s3⟩
        | none => deleteLoop repo rt req startTime fuel totalDeleted result tr1 s2

/-- The method `cleanerUseCase.CleanTable`. The deferred `unlock()` runs after the return
values are fixed, so it ends the trace and acts on the final world. -/
def CleanTable {σ : Type} (repo : CleanerRepository σ) (rt : Runtime σ) (fuel : Nat)
    (req : CleanupRequest) (s : σ) : Option (Run σ) :=
  match req.Validate with
  | some err => some ⟨none, some err, [], s⟩
  | none =>
    let (verr, s1) := repo.ValidateTable req.TableName s
    let tr1 := [Call.ValidateTable req.TableName verr]
    match verr with
    | some err => some ⟨none, some (Errorf_w "table validation failed: " err), tr1, s1⟩
    | none =>
      let ((acquired, unlock, lerr), s2) := repo.TryAcquireLock req.TableName s1
      let tr2 := tr1 ++ [Call.TryAcquireLock req.TableName acquired lerr]
      match lerr with
      | some err => some ⟨none, some (Errorf_w "lock acquisition failed: " err), tr2, s2⟩
      | none =>
        if !acquired then
          some ⟨none,
                some (.errorString ("another process is already cleaning table " ++ req.TableName)),
                tr2, s2⟩
        else
          let (startTime, s3) := rt.Now s2
          let result : CleanupResult := inProgress req
          match deleteLoop repo rt req startTime fuel 0 result tr2 s3 with
          | none => none
          | some run => some { run with trace := run.trace ++ [Call.unlock], world := unlock run.world }

/-! ## A gateway that keeps a log

To say what a gateway has been asked, and whether the release action it handed back has
been invoked, the gateway itself keeps the log: it is written on the gateway's side of
the interface, from the arguments received, not by the use case. -/

/-- The gateway `repo` with a log beside its world: every call it receives is logged with
the arguments received and the answer given, and the release action it hands back logs
`unlock` each time it is invoked, besides releasing the lock of `repo`. -/
def CleanerRepository.recording {σ : Type} (repo : CleanerRepository σ) :
    CleanerRepository (σ × List Call) where
  DeleteBatch := fun tableName beforeDate batchSize w =>
    let r := repo.DeleteBatch tableName beforeDate batchSize w.1
    (r.1, (r.2, w.2 ++ [Call.DeleteBatch tableName beforeDate batchSize r.1.1 r.1.2]))
  TryAcquireLock := fun tableName w =>
    let r := repo.TryAcquireLock tableName w.1
    ((r.1.1, (fun v => (r.1.2.1 v.1, v.2 ++ [Call.unlock])), r.1.2.2),
      (r.2, w.2 ++ [Call.TryAcquireLock tableName r.1.1 r.1.2.2]))
  ValidateTable := fun tableName w =>
    let r := repo.ValidateTable tableName w.1
    (r.1, (r.2, w.2 ++ [Call.ValidateTable tableName r.1]))

/-- A clock and a context of their own, placed beside the log of a recording gateway:
they leave the log alone. -/
def Runtime.besideLog {σ : Type} (rt : Runtime σ) : Runtime (σ × List Call) where
  Now := fun w => ((rt.Now w.1).1, ((rt.Now w.1).2, w.2))
  Pause := fun w => ((rt.Pause w.1).1, ((rt.Pause w.1).2, w.2))

/-- The run against the recording gateway that corresponds to a run against the gateway
itself: the same returned values and trace, and the log extended by that trace. -/
def Run.withLog {σ : Type} (log0 : List Call) (run : Run σ) : Run (σ × List Call) :=
  ⟨run.result, run.err, run.trace, (run.world, log0 ++ run.trace)⟩

/-! ## Scripted collaborators

For statements about a run in which the gateway answers in a given way, the
collaborators are driven by a script: the answer to the `i`-th call of each kind. The
world only counts the calls made, so a script is an arbitrary deterministic behaviour
of the gateway, the context and the clock along one run. -/

/-- The answers of the collaborators, by call number (from 0). -/
structure Script where
  validate : Option GoError
  lock : Bool × Option GoError
  batches : Nat → Int × Option GoError
  pauses : Nat → Option GoError
  clock : Nat → Int

/-- The calls made so far against a script. -/
structure ScriptState where
  batchCalls : Nat
  pauseCalls : Nat
  clockReads : Nat
  unlocks : Nat
  deriving DecidableEq, Repr

/-- The world before any call. -/
def ScriptState.init : ScriptState := ⟨0, 0, 0, 0⟩

/-- A repository that answers from a script. -/
def scriptedRepository (sc : Script) : CleanerRepository ScriptState where
  DeleteBatch := fun _ _ _ s => (sc.batches s.batchCalls, { s with batchCalls := s.batchCalls + 1 })
  TryAcquireLock := fun _ s =>
    ((sc.lock.1, (fun w => { w with unlocks := w.unlocks + 1 }), sc.lock.2), s)
  ValidateTable := fun _ s => (sc.validate, s)

/-- A clock and a context that answer from a script. -/
def scriptedRuntime (sc : Script) : Runtime ScriptState where
  Now := fun s => (sc.clock s.clockReads, { s with clockReads := s.clockReads + 1 })
  Pause := fun s => (sc.pauses s.pauseCalls, { s with pauseCalls := s.pauseCalls + 1 })

/-- The trace entries of `k` successful `DeleteBatch` calls answering `c 0`, ..., `c (k-1)`. -/
def batchCalls (req : CleanupRequest) (c : Nat → Int) (k : Nat) : List Call :=
  (List.range k).map
    (fun i => Call.DeleteBatch req.TableName req.BeforeDate req.BatchSize (c i) none)

/-- The sum `c 0 + ... + c (k-1)`. -/
def sumTo (c : Nat → Int) (k : Nat) : Int := ((List.range k).map c).sum

/-- A store that answers every read with `true`, every statement with success and every
delete statement with `rows` rows. -/
def obligingDb (rows : Nat) : Db Unit where
  GetContext := fun _ _ d => (.ok true, d)
  Get := fun _ _ d => (.ok true, d)
  BeginTxx := fun d => (none, d)
  QueryxContext := fun _ _ _ d => (.ok (rows, none), d)
  Commit := fun d => (none, d)
  Rollback := fun d => d

/-- A clock that stands still and a context that is never done. -/
def quietRuntime (σ : Type) : Runtime σ where
  Now := fun s => (0, s)
  Pause := fun s => (none, s)

/-! ## Example inputs -/

/-- A request with a safe table name, cutoff 2023-01-01T00:00:00Z. -/
def eventsRequest (batchSize : Int) : CleanupRequest :=
  { TableName := "events", BeforeDate := ⟨63808128000, 0⟩, BatchSize := batchSize }

/-- A request without a table name. -/
def namelessRequest : CleanupRequest :=
  { TableName := "", BeforeDate := ⟨63808128000, 0⟩, BatchSize := 100 }

/-- The count of batch `i` of a table of 250 matching rows deleted by hundreds. -/
def drainCounts (i : Nat) : Int := if i < 2 then 100 else 50

/-- A script: batches of 100, 100 and 50 rows, no cancellation. -/
def drainScript : Script where
  validate := none
  lock := (true, none)
  batches := fun i => (drainCounts i, none)
  pauses := fun _ => none
  clock := fun _ => 0

/-- A script: full batches of 100 rows, the context done during the second pause. -/
def cancelScript : Script where
  validate := none
  lock := (true, none)
  batches := fun _ => (100, none)
  pauses := fun i => if i = 1 then some (GoError.other "context canceled") else none
  clock := fun _ => 0

/-- The largest Go `int`, `2^63 - 1`. -/
def maxInt : Int := 9223372036854775807

/-- The count of batch `i` of a run with one full batch of `maxInt` rows and one row more. -/
def bigCounts (i : Nat) : Int := if i = 0 then maxInt else 1

/-- A script: a batch of `maxInt` rows, then batches of one row, no cancellation. -/
def bigScript : Script where
  validate := none
  lock := (true, none)
  batches := fun i => (bigCounts i, none)
  pauses := fun _ => none
  clock := fun _ => 0

/-- A script: batches of `maxInt` rows, the context done during the second pause. -/
def bigCancelScript : Script where
  validate := none
  lock := (true, none)
  batches := fun _ => (maxInt, none)
  pauses := fun i => if i = 1 then some (GoError.other "context canceled") else none
  clock := fun _ => 0

/-- A script: one full batch of two rows, then a failing batch. -/
def failingScript : Script where
  validate := none
  lock := (true, none)
  batches := fun i => if i = 0 then (2, none) else (0, some (GoError.other "connection reset"))
  pauses := fun _ => none
  clock := fun _ => 0

/-- A script: the lock of the table is held by another run. -/
def busyScript : Script where
  validate := none
  lock := (false, none)
  batches := fun _ => (0, none)
  pauses := fun _ => none
  clock := fun _ => 0

/-- A script: the table does not exist. -/
def missingTableScript : Script where
  validate := some (GoError.errorString "table events does not exist")
  lock := (true, none)
  batches := fun _ => (0, none)
  pauses := fun _ => none
  clock := fun _ => 0

/-! ## The task registry of the use case -/

/-- The struct `cleanerUseCase`, its task registry: `activeTasks` maps a task identifier
to a pointer, and a pointer is an address of the heap of `CleanupResult` objects, of
which the addresses below `next` are allocated. (The repository and the logger are
passed to the methods that use them; the mutex orders concurrent accesses and has no
other effect.) -/
structure cleanerUseCase where
  heap : Nat → CleanupResult
  next : Nat
  activeTasks : List (String × Nat)

/-- Every pointer stored in the registry points to an allocated object. -/
def cleanerUseCase.allocated (uc : cleanerUseCase) : Prop :=
  ∀ kv ∈ uc.activeTasks, kv.2 < uc.next

/-- The assignment through a pointer, `*p = v`. -/
def cleanerUseCase.assign (uc : cleanerUseCase) (p : Nat) (v : CleanupResult) : cleanerUseCase :=
  { uc with heap := Function.update uc.heap p v }

/-- The method `cleanerUseCase.GetCleanupStatus`: the lookup in the map, and on success
the copy `resultCopy := *result` into a new object, whose address is returned. -/
def GetCleanupStatus (uc : cleanerUseCase) (taskID : String) :
    (Option Nat × Option GoError) × cleanerUseCase :=
  match uc.activeTasks.lookup taskID with
  | none => ((none, some (.errorString ("task with ID " ++ taskID ++ " not found"))), uc)
  | some result =>
    let resultCopy := uc.heap result
    ((some uc.next, none),
      { uc with heap := Function.update uc.heap uc.next resultCopy, next := uc.next + 1 })

/-- An example registry: one task, whose record is the only allocated object. -/
def sampleUseCase : cleanerUseCase where
  heap := fun _ => { TableName := "events", RowsDeleted := 200, ElapsedTime := 0,
                     Status := "in_progress", ErrorMessage := "" }
  next := 1
  activeTasks := [("task-1", 0)]

/-! ## The asynchronous dispatcher (`usecase/cleaner.go`) -/

/-- The assignment `m[key] = value` on a Go map: the entry of `key`, if any, is replaced. -/
def mapAssign (m : List (String × Nat)) (key : String) (value : Nat) : List (String × Nat) :=
  (key, value) :: m.filter (fun kv => kv.1 != key)

/-- What a call of `StartAsyncCleanup` leaves behind: the two returned values, the use
case, and the goroutine it has launched, given by the pointer `result` that the closure
captures (`none` when no goroutine is launched). -/
structure AsyncStart where
  taskID : String
  err : Option GoError
  uc : cleanerUseCase
  goroutine : Option Nat

/-- The statements that `cleanerUseCase.StartAsyncCleanup` runs in the goroutine of its
caller, up to the `go` statement; `newUUID` is the value of `uuid.New().String()`. The new
`CleanupResult` is allocated at the address `next`. The body of the goroutine it launches
is `cleanupGoroutine`; that goroutine runs beside the caller, so what the caller finds at
the `return` is given by `AsyncStart.atReturn`. -/
def StartAsyncCleanup (uc : cleanerUseCase) (newUUID : String) (req : CleanupRequest) :
    AsyncStart :=
  match req.Validate with
  | some err => ⟨"", some err, uc, none⟩
  | none =>
    let taskID := newUUID
    let result := uc.next
    let pending : CleanupResult :=
      { TableName := req.TableName, Status := "pending", RowsDeleted := 0, ElapsedTime := 0,
        ErrorMessage := "" }
    ⟨taskID, none,
     { heap := Function.update uc.heap result pending, next := uc.next + 1,
       activeTasks := mapAssign uc.activeTasks taskID result },
     some result⟩

/-- The update of the task record at the end of the goroutine of `StartAsyncCleanup`,
between `Lock` and `Unlock`; `none` stands for the panic of `*cleanResult` on a nil
pointer. -/
def recordOutcome (uc : cleanerUseCase) (result : Nat) (cleanResult : Option CleanupResult)
    (err : Option GoError) : Option cleanerUseCase :=
  match err, cleanResult with
  | some e, none =>
    some (uc.assign result { uc.heap result with Status := "failed", ErrorMessage := e.Error })
  | _, some r => some (uc.assign result r)
  | none, none => none

/-- The goroutine of `StartAsyncCleanup` for the task record at `result`, up to the timer
that removes the task an hour later: the status `in_progress`, the call of `CleanTable`
(with its own context, part of `rt`), the update of the record. The outer `none` is lack
of fuel in `CleanTable`. -/
def cleanupGoroutine {σ : Type} (repo : CleanerRepository σ) (rt : Runtime σ) (fuel : Nat)
    (req : CleanupRequest) (result : Nat) (uc : cleanerUseCase) (s : σ) :
    Option (Option cleanerUseCase × Run σ) :=
  let uc1 := uc.assign result { uc.heap result with Status := "in_progress" }
  match CleanTable repo rt fuel req s with
  | none => none
  | some run => some (recordOutcome uc1 result run.result run.err, run)

/-- How far the goroutine launched by `StartAsyncCleanup` has run at the instant the
method returns. The goroutine runs beside its caller from the `go` statement on, so the
scheduler decides: it has taken no step; or it has made its first write,
`result.Status = "in_progress"`, which the mutex does not guard, and is inside
`CleanTable`; or it has run to the end of the update of the record (the timer that
removes the task fires an hour after that). -/
inductive Progress where
  | launched
  | running
  | finished
  deriving DecidableEq, Repr

/-- The use case as the caller of `StartAsyncCleanup` finds it when the method returns:
the state that the statements of the method have left, advanced by the steps that the
launched goroutine has taken by then. It is `none` when `finished` is asked of a run of
`CleanTable` that lacks fuel. -/
def AsyncStart.atReturn {σ : Type} (start : AsyncStart) (repo : CleanerRepository σ)
    (rt : Runtime σ) (fuel : Nat) (req : CleanupRequest) (progress : Progress) (s : σ) :
    Option cleanerUseCase :=
  match start.goroutine, progress with
  | none, _ => some start.uc
  | some _, .launched => some start.uc
  | some result, .running =>
    some (start.uc.assign result { start.uc.heap result with Status := "in_progress" })
  | some result, .finished =>
    match cleanupGoroutine repo rt fuel req result start.uc s with
    | none => none
    | some out => out.1

/-! ## The synchronous handler (`delivery/http/handler.go`) -/

/-- The JSON payload of a response: `map[string]string{"error": message}` or a
`*CleanupResult`. -/
inductive Payload where
  | error (message : String)
  | result (r : Option CleanupResult)
  deriving DecidableEq, Repr

/-- A response written by `respondWithJSON`: the status code and the payload. -/
structure Response where
  code : Nat
  payload : Payload
  deriving DecidableEq, Repr

def StatusOK : Nat := 200
def StatusBadRequest : Nat := 400
def StatusInternalServerError : Nat := 500

/-- The type assertion `err.(entities.DomainError)`. -/
def GoError.isDomainError : GoError → Bool
  | .DomainError _ => true
  | _ => false

/-- The default of `HandleCleanup`: a batch size of 0 becomes 5000. -/
def applyDefaults (req : CleanupRequest) : CleanupRequest :=
  if req.BatchSize == 0 then { req with BatchSize := 5000 } else req

/-- The method `Handler.HandleCleanup`; `body` is the request decoded from JSON, `none`
when decoding fails. The context with its timeout is part of `rt`. -/
def HandleCleanup {σ : Type} (repo : CleanerRepository σ) (rt : Runtime σ) (fuel : Nat)
    (body : Option CleanupRequest) (s : σ) : Option (Response × σ) :=
  match body with
  | none => some (⟨StatusBadRequest, .error "Invalid request format"⟩, s)
  | some decoded =>
    let req := applyDefaults decoded
    match CleanTable repo rt fuel req s with
    | none => none
    | some run =>
      match run.err with
      | some err =>
        if err.isDomainError then some (⟨StatusBadRequest, .error err.Error⟩, run.world)
        else some (⟨StatusInternalServerError, .error "Internal server error"⟩, run.world)
      | none => some (⟨StatusOK, .result run.result⟩, run.world)

/-! ## A table of rows behind the gateway -/

/-- A table with `rows` rows older than the cutoff, no other writer, and its advisory
lock. -/
structure TableWorld where
  rows : Nat
  held : Bool
  deriving DecidableEq, Repr

/-- A gateway in front of such a table: the table exists, the lock is granted when it is
free and released by the release action, and `DeleteBatch` removes
`min(limit, rows remaining)` rows and returns their number, never failing. -/
def tableRepository : CleanerRepository TableWorld where
  DeleteBatch := fun _ _ limit w =>
    (((min limit.toNat w.rows : Nat), none), { w with rows := w.rows - min limit.toNat w.rows })
  TryAcquireLock := fun _ w =>
    if w.held then ((false, id, none), w)
    else ((true, (fun v => { v with held := false }), none), { w with held := true })
  ValidateTable := fun _ w => (none, w)

/-- The counts of the batches that empty a table of `m` rows by batches of `n`: `m / n`
full batches and a last one of `m % n` rows. -/
def tableBatches (n m : Nat) : List Int :=
  List.replicate (m / n) (n : Int) ++ [((m % n : Nat) : Int)]

/-- The use case after `StartAsyncCleanup` has registered a second task, for the example
request with batch size 2; the record of the task is at address 1. -/
def startedUseCase : cleanerUseCase :=
  (StartAsyncCleanup sampleUseCase "task-2" (eventsRequest 2)).uc

/-! # Properties -/

/-! ## Table name validator -/

theorem hasPrefix_iff (s w : List Char) : HasPrefix s w = true ↔ w <+: s := by
  induction s generalizing w with
  | nil => cases w <;> simp [HasPrefix]
  | cons a s ih => cases w with
    | nil => simp [HasPrefix]
    | cons b w => simp [HasPrefix, ih, List.cons_prefix_cons]; tauto

theorem containsAt_iff (s w : List Char) : containsAt s w = true ↔ w <:+: s := by
  induction s with
  | nil => simp [containsAt, hasPrefix_iff]
  | cons a s ih =>
    simp only [containsAt, Bool.or_eq_true, hasPrefix_iff, ih, List.infix_cons_iff]

theorem allowedRune_iff (c : Char) :
    allowedRune c = true ↔
      ('a' ≤ c ∧ c ≤ 'z') ∨ ('A' ≤ c ∧ c ≤ 'Z') ∨ ('0' ≤ c ∧ c ≤ '9') ∨ c = '_' := by
  simp [allowedRune, or_assoc]

theorem runesAllowed_iff (l : List Char) :
    runesAllowed l = true ↔ ∀ c ∈ l, allowedRune c = true := by
  induction l with
  | nil => simp [runesAllowed]
  | cons a l ih =>
    by_cases h : allowedRune a = true <;> simp [runesAllowed, h, ih]

theorem noForbiddenWord_iff (lower : String) (ws : List String) :
    noForbiddenWord lower ws = true ↔ ∀ w ∈ ws, ¬ w.data <:+: lower.data := by
  induction ws with
  | nil => simp [noForbiddenWord]
  | cons w ws ih =>
    by_cases h : Contains lower w = true
    · have h2 := h
      rw [Contains, containsAt_iff] at h2
      simp [noForbiddenWord, h, h2]
    · have h2 := h
      rw [Contains, containsAt_iff] at h2
      simp [noForbiddenWord, h, h2, ih]

/-- With a name the validator refuses, `DeleteBatch` returns at its first statement: the
world, and with it the log of driver calls, is as before. -/
theorem DeleteBatch_invalid_name {δ : Type} (caseTable : Char → Char) (db : Db δ)
    (tableName : String) (beforeDate : Time) (batchSize : Int) (st : PgState δ)
    (h : isValidTableName caseTable tableName = false) :
    DeleteBatch caseTable db tableName beforeDate batchSize st
      = ((0, some (GoError.errorString ("invalid table name: " ++ tableName))), st) := by
  simp [DeleteBatch, h]

/-- C1: `isValidTableName s` is true exactly when every character of `s` is an ASCII
letter, a digit or an underscore and the lower-cased `s` contains none of the eight
forbidden substrings (whatever the Unicode case tables are); and when it is false
`DeleteBatch` returns count 0 and the error `invalid table name: s` with the store and
its log of driver calls untouched, so that no transaction is begun. -/
theorem isValidTableName_spec (caseTable : Char → Char) (s : String) :
    (isValidTableName caseTable s = true ↔
      (∀ c ∈ s.data,
        ('a' ≤ c ∧ c ≤ 'z') ∨ ('A' ≤ c ∧ c ≤ 'Z') ∨ ('0' ≤ c ∧ c ≤ '9') ∨ c = '_') ∧
      (∀ w ∈ [";", "--", "/*", "*/", "drop", "delete", "insert", "update"],
        ¬ (w : String).data <:+: (ToLower caseTable s).data)) ∧
    (isValidTableName caseTable s = false →
      ∀ (δ : Type) (db : Db δ) (beforeDate : Time) (batchSize : Int) (st : PgState δ),
        DeleteBatch caseTable db s beforeDate batchSize st
          = ((0, some (GoError.errorString ("invalid table name: " ++ s))), st)) := by
  constructor
  · unfold isValidTableName
    by_cases h : runesAllowed s.data = true
    · have h2 := h
      rw [runesAllowed_iff] at h2
      simp only [h, Bool.not_true, Bool.false_eq_true, if_false, noForbiddenWord_iff, forbidden]
      constructor
      · intro hw
        exact ⟨fun c hc => (allowedRune_iff c).1 (h2 c hc), hw⟩
      · exact fun hw => hw.2
    · have h2 := h
      rw [runesAllowed_iff] at h2
      simp only [h, Bool.not_false, if_true, Bool.false_eq_true, false_iff, not_and]
      intro hc
      exact absurd (fun c hm => (allowedRune_iff c).2 (hc c hm)) h2
  · intro h δ db beforeDate batchSize st
    exact DeleteBatch_invalid_name caseTable db s beforeDate batchSize st h

/-- C1 at the name `x; drop`: the validator refuses it and `DeleteBatch` leaves an empty
log empty. -/
theorem isValidTableName_spec_witness :
    isValidTableName id "x; drop" = false ∧
    DeleteBatch id (obligingDb 3) "x; drop" ⟨63808128000, 0⟩ 100 ⟨(), []⟩
      = ((0, some (GoError.errorString ("invalid table name: " ++ "x; drop"))), ⟨(), []⟩) :=
  ⟨by decide,
   (isValidTableName_spec id "x; drop").2 (by decide) Unit (obligingDb 3) ⟨63808128000, 0⟩ 100
     ⟨(), []⟩⟩

/-! ## An unsafe name in `CleanTable` -/

/-- C3: `Validate` returns no error exactly when the table name is non-empty, the cutoff
is not the zero time and the batch size is positive; otherwise it returns
`ErrEmptyTableName` for an empty name, else `ErrInvalidDate` for a zero cutoff, else
`ErrInvalidBatchSize`; the error is a `DomainError`, and `CleanTable` returns that very
error, unwrapped, with no result, an empty trace of gateway calls and the world as it
was. -/
theorem Validate_spec (req : CleanupRequest) :
    (req.Validate = none ↔
      req.TableName ≠ "" ∧ req.BeforeDate.IsZero = false ∧ 0 < req.BatchSize) ∧
    (req.TableName = "" → req.Validate = some ErrEmptyTableName) ∧
    (req.TableName ≠ "" → req.BeforeDate.IsZero = true → req.Validate = some ErrInvalidDate) ∧
    (req.TableName ≠ "" → req.BeforeDate.IsZero = false → req.BatchSize ≤ 0 →
      req.Validate = some ErrInvalidBatchSize) ∧
    (∀ e, req.Validate = some e →
      (∃ m, e = GoError.DomainError m) ∧
      ∀ (σ : Type) (repo : CleanerRepository σ) (rt : Runtime σ) (fuel : Nat) (s : σ),
        CleanTable repo rt fuel req s = some ⟨none, some e, [], s⟩) := by
  refine ⟨?_, ?_, ?_, ?_, ?_⟩
  · unfold CleanupRequest.Validate
    by_cases h1 : req.TableName = ""
    · simp [h1]
    · by_cases h2 : req.BeforeDate.IsZero = true
      · simp [h1, h2]
      · by_cases h3 : req.BatchSize ≤ 0
        · simp [h1, h2, h3]
        · simpa [h1, h2, h3] using not_le.mp h3
  · intro h1
    simp [CleanupRequest.Validate, h1]
  · intro h1 h2
    simp [CleanupRequest.Validate, h1, h2]
  · intro h1 h2 h3
    simp [CleanupRequest.Validate, h1, h2, h3]
  · intro e he
    constructor
    · unfold CleanupRequest.Validate at he
      split at he
      · exact ⟨_, (Option.some.inj he).symm⟩
      · split at he
        · exact ⟨_, (Option.some.inj he).symm⟩
        · split at he
          · exact ⟨_, (Option.some.inj he).symm⟩
          · cases he
    · intro σ repo rt fuel s
      simp [CleanTable, he]

/-- C3 at a request without a table name. -/
theorem Validate_spec_witness :
    namelessRequest.Validate = some ErrEmptyTableName ∧
    CleanTable (scriptedRepository drainScript) (scriptedRuntime drainScript) 5 namelessRequest
        ScriptState.init
      = some ⟨none, some ErrEmptyTableName, [], ScriptState.init⟩ :=
  ⟨(Validate_spec namelessRequest).2.1 rfl,
   ((Validate_spec namelessRequest).2.2.2.2 ErrEmptyTableName (by decide)).2 ScriptState
     (scriptedRepository drainScript) (scriptedRuntime drainScript) 5 ScriptState.init⟩

/-! ## Arithmetic of Go integers -/

theorem wrapInt_wrapInt_add (a b : Int) : wrapInt (wrapInt a + b) = wrapInt (a + b) := by
  unfold wrapInt
  omega

theorem wrapInt_idem (a : Int) : wrapInt (wrapInt a) = wrapInt a := by
  unfold wrapInt
  omega

theorem wrapInt_of_range (a : Int) (hlo : -2 ^ 63 ≤ a) (hhi : a < 2 ^ 63) : wrapInt a = a := by
  unfold wrapInt
  omega

theorem wrapInt_zero : wrapInt 0 = 0 := by decide

/-! ## The log of a recording gateway -/

theorem recording_DeleteBatch {σ : Type} (repo : CleanerRepository σ) (t : String) (d : Time)
    (n : Int) (w : σ × List Call) :
    repo.recording.DeleteBatch t d n w
      = ((repo.DeleteBatch t d n w.1).1,
          ((repo.DeleteBatch t d n w.1).2,
            w.2 ++ [Call.DeleteBatch t d n (repo.DeleteBatch t d n w.1).1.1
              (repo.DeleteBatch t d n w.1).1.2])) := rfl

theorem recording_ValidateTable {σ : Type} (repo : CleanerRepository σ) (t : String)
    (w : σ × List Call) :
    repo.recording.ValidateTable t w
      = ((repo.ValidateTable t w.1).1,
          ((repo.ValidateTable t w.1).2,
            w.2 ++ [Call.ValidateTable t (repo.ValidateTable t w.1).1])) := rfl

theorem recording_TryAcquireLock {σ : Type} (repo : CleanerRepository σ) (t : String)
    (w : σ × List Call) :
    repo.recording.TryAcquireLock t w
      = (((repo.TryAcquireLock t w.1).1.1,
          (fun v => ((repo.TryAcquireLock t w.1).1.2.1 v.1, v.2 ++ [Call.unlock])),
          (repo.TryAcquireLock t w.1).1.2.2),
         ((repo.TryAcquireLock t w.1).2,
          w.2 ++ [Call.TryAcquireLock t (repo.TryAcquireLock t w.1).1.1
            (repo.TryAcquireLock t w.1).1.2.2])) := rfl

theorem besideLog_Now {σ : Type} (rt : Runtime σ) (w : σ × List Call) :
    rt.besideLog.Now w = ((rt.Now w.1).1, ((rt.Now w.1).2, w.2)) := rfl

theorem besideLog_Pause {σ : Type} (rt : Runtime σ) (w : σ × List Call) :
    rt.besideLog.Pause w = ((rt.Pause w.1).1, ((rt.Pause w.1).2, w.2)) := rfl

theorem deleteLoop_recording {σ : Type} (repo : CleanerRepository σ) (rt : Runtime σ)
    (req : CleanupRequest) (startTime : Int) (fuel : Nat) (total : Int)
    (result : CleanupResult) (tr : List Call) (s : σ) (log0 : List Call) :
    deleteLoop repo.recording rt.besideLog req startTime fuel total result tr (s, log0 ++ tr)
      = (deleteLoop repo rt req startTime fuel total result tr s).map (Run.withLog log0) := by
  induction fuel generalizing total tr s with
  | zero => simp [deleteLoop]
  | succ fuel ih =>
    rw [deleteLoop, deleteLoop]
    simp only [recording_DeleteBatch, besideLog_Now, besideLog_Pause]
    cases hE : (repo.DeleteBatch req.TableName req.BeforeDate req.BatchSize s).1.2 with
    | some e => simp [Run.withLog]
    | none =>
      simp only []
      by_cases hlt : (repo.DeleteBatch req.TableName req.BeforeDate req.BatchSize s).1.1
          < req.BatchSize
      · simp [hlt, Run.withLog]
      · simp only [hlt, if_false]
        cases hP : (rt.Pause
            (repo.DeleteBatch req.TableName req.BeforeDate req.BatchSize s).2).1 with
        | some c => simp [Run.withLog]
        | none =>
          simp only []
          rw [List.append_assoc]
          exact ih _ _ _

/-! ## The delete loop against a script -/

theorem sumTo_succ_shift (c : Nat → Int) (k : Nat) :
    sumTo c (k + 1) = c 0 + sumTo (fun i => c (i + 1)) k := by
  simp [sumTo, List.range_succ_eq_map, List.map_map, Function.comp_def]

theorem sumTo_succ (c : Nat → Int) (k : Nat) : sumTo c (k + 1) = sumTo c k + c k := by
  simp [sumTo, List.range_succ]

theorem batchCalls_succ_shift (req : CleanupRequest) (c : Nat → Int) (k : Nat) :
    batchCalls req c (k + 1)
      = Call.DeleteBatch req.TableName req.BeforeDate req.BatchSize (c 0) none
          :: batchCalls req (fun i => c (i + 1)) k := by
  simp [batchCalls, List.range_succ_eq_map, List.map_map, Function.comp_def]

theorem batchCalls_succ (req : CleanupRequest) (c : Nat → Int) (k : Nat) :
    batchCalls req c (k + 1)
      = batchCalls req c k
          ++ [Call.DeleteBatch req.TableName req.BeforeDate req.BatchSize (c k) none] := by
  simp [batchCalls, List.range_succ]

theorem scripted_DeleteBatch (sc : Script) (t : String) (d : Time) (n : Int) (s : ScriptState) :
    (scriptedRepository sc).DeleteBatch t d n s
      = (sc.batches s.batchCalls, { s with batchCalls := s.batchCalls + 1 }) := rfl

theorem scripted_ValidateTable (sc : Script) (t : String) (s : ScriptState) :
    (scriptedRepository sc).ValidateTable t s = (sc.validate, s) := rfl

theorem scripted_TryAcquireLock (sc : Script) (t : String) (s : ScriptState) :
    (scriptedRepository sc).TryAcquireLock t s
      = ((sc.lock.1, (fun w => { w with unlocks := w.unlocks + 1 }), sc.lock.2), s) := rfl

theorem scripted_Now (sc : Script) (s : ScriptState) :
    (scriptedRuntime sc).Now s = (sc.clock s.clockReads, { s with clockReads := s.clockReads + 1 }) :=
  rfl

theorem scripted_Pause (sc : Script) (s : ScriptState) :
    (scriptedRuntime sc).Pause s
      = (sc.pauses s.pauseCalls, { s with pauseCalls := s.pauseCalls + 1 }) := rfl

/-- While the scripted batches are full and the context is not done, the loop goes on:
`k` iterations add the `k` counts to the total, in the arithmetic of Go, and `k` calls to
the trace. -/
theorem deleteLoop_full_batches (sc : Script) (req : CleanupRequest) (startTime : Int)
    (k m : Nat) (c : Nat → Int) (total : Int) (result : CleanupResult) (tr : List Call)
    (s : ScriptState)
    (hw : wrapInt total = total)
    (hb : ∀ i < k, sc.batches (s.batchCalls + i) = (c i, none))
    (hfull : ∀ i < k, req.BatchSize ≤ c i)
    (hp : ∀ i < k, sc.pauses (s.pauseCalls + i) = none) :
    deleteLoop (scriptedRepository sc) (scriptedRuntime sc) req startTime (k + m) total result tr s
      = deleteLoop (scriptedRepository sc) (scriptedRuntime sc) req startTime m
          (wrapInt (total + sumTo c k)) result (tr ++ batchCalls req c k)
          { s with batchCalls := s.batchCalls + k, pauseCalls := s.pauseCalls + k } := by
  induction k generalizing c total tr s with
  | zero => simp [sumTo, batchCalls, hw]
  | succ k ih =>
    have h0 : sc.batches s.batchCalls = (c 0, none) := by simpa using hb 0 (Nat.succ_pos k)
    have hf0 : ¬ c 0 < req.BatchSize := not_lt.mpr (hfull 0 (Nat.succ_pos k))
    have hp0 : sc.pauses s.pauseCalls = none := by simpa using hp 0 (Nat.succ_pos k)
    have hfuel : k + 1 + m = (k + m) + 1 := by omega
    rw [hfuel, deleteLoop]
    simp only [scripted_DeleteBatch, scripted_Pause, h0, hf0, hp0, if_false]
    rw [ih (fun i => c (i + 1)) _ _ _ (wrapInt_idem _)]
    · rw [sumTo_succ_shift, batchCalls_succ_shift, wrapInt_wrapInt_add]
      simp [add_assoc, Nat.add_comm 1 k]
    · intro i hi
      have := hb (i + 1) (Nat.succ_lt_succ hi)
      simpa [Nat.add_assoc, Nat.add_comm 1 i] using this
    · intro i hi
      exact hfull (i + 1) (Nat.succ_lt_succ hi)
    · intro i hi
      have := hp (i + 1) (Nat.succ_lt_succ hi)
      simpa [Nat.add_assoc, Nat.add_comm 1 i] using this

/-- The same against the recording gateway: the `k` calls received are logged. -/
theorem deleteLoop_full_batches_logged (sc : Script) (req : CleanupRequest) (startTime : Int)
    (k m : Nat) (c : Nat → Int) (total : Int) (result : CleanupResult) (tr log : List Call)
    (s : ScriptState)
    (hw : wrapInt total = total)
    (hb : ∀ i < k, sc.batches (s.batchCalls + i) = (c i, none))
    (hfull : ∀ i < k, req.BatchSize ≤ c i)
    (hp : ∀ i < k, sc.pauses (s.pauseCalls + i) = none) :
    deleteLoop (scriptedRepository sc).recording (scriptedRuntime sc).besideLog req startTime
        (k + m) total result tr (s, log)
      = deleteLoop (scriptedRepository sc).recording (scriptedRuntime sc).besideLog req startTime
          m (wrapInt (total + sumTo c k)) result (tr ++ batchCalls req c k)
          ({ s with batchCalls := s.batchCalls + k, pauseCalls := s.pauseCalls + k },
           log ++ batchCalls req c k) := by
  induction k generalizing c total tr log s with
  | zero => simp [sumTo, batchCalls, hw]
  | succ k ih =>
    have h0 : sc.batches s.batchCalls = (c 0, none) := by simpa using hb 0 (Nat.succ_pos k)
    have hf0 : ¬ c 0 < req.BatchSize := not_lt.mpr (hfull 0 (Nat.succ_pos k))
    have hp0 : sc.pauses s.pauseCalls = none := by simpa using hp 0 (Nat.succ_pos k)
    have hfuel : k + 1 + m = (k + m) + 1 := by omega
    rw [hfuel, deleteLoop]
    simp only [recording_DeleteBatch, besideLog_Pause, scripted_DeleteBatch, scripted_Pause, h0,
      hf0, hp0, if_false]
    rw [ih (fun i => c (i + 1)) _ _ _ _ (wrapInt_idem _)]
    · rw [sumTo_succ_shift, batchCalls_succ_shift, wrapInt_wrapInt_add]
      simp [add_assoc, Nat.add_comm 1 k]
    · intro i hi
      have := hb (i + 1) (Nat.succ_lt_succ hi)
      simpa [Nat.add_assoc, Nat.add_comm 1 i] using this
    · intro i hi
      exact hfull (i + 1) (Nat.succ_lt_succ hi)
    · intro i hi
      have := hp (i + 1) (Nat.succ_lt_succ hi)
      simpa [Nat.add_assoc, Nat.add_comm 1 i] using this

/-- With a valid request, a valid table and the lock acquired, a scripted run is the loop
followed by the release of the lock. -/
theorem CleanTable_scripted_locked (sc : Script) (req : CleanupRequest) (fuel : Nat)
    (hreq : req.Validate = none) (hv : sc.validate = none) (hl : sc.lock = (true, none)) :
    CleanTable (scriptedRepository sc) (scriptedRuntime sc) fuel req ScriptState.init
      = (deleteLoop (scriptedRepository sc) (scriptedRuntime sc) req (sc.clock 0) fuel 0
          (inProgress req)
          [Call.ValidateTable req.TableName none, Call.TryAcquireLock req.TableName true none]
          ⟨0, 0, 1, 0⟩).map
        (fun run => { run with trace := run.trace ++ [Call.unlock],
                               world := { run.world with unlocks := run.world.unlocks + 1 } }) := by
  simp only [CleanTable, hreq, scripted_ValidateTable, hv, scripted_TryAcquireLock, hl,
    scripted_Now, ScriptState.init]
  simp only [Bool.not_true, Bool.false_eq_true, if_false, List.singleton_append, Nat.zero_add]
  cases deleteLoop (scriptedRepository sc) (scriptedRuntime sc) req (sc.clock 0) fuel 0
          (inProgress req)
          [Call.ValidateTable req.TableName none, Call.TryAcquireLock req.TableName true none]
          ⟨0, 0, 1, 0⟩ <;> rfl

/-- C4 as stated fails: with batch size `2^63 - 1`, a first batch of `2^63 - 1` rows and a
second batch of one row, the run ends `completed` after the two calls, but the total is
kept in a Go `int`: `RowsDeleted` is `-2^63`, not the sum `2^63` of the two counts. -/
theorem CleanTable_completed_wraps :
    (eventsRequest maxInt).Validate = none ∧
    (∀ i ≤ 1, bigScript.batches i = (bigCounts i, none)) ∧
    (∀ i < 1, (eventsRequest maxInt).BatchSize ≤ bigCounts i) ∧
    bigCounts 1 < (eventsRequest maxInt).BatchSize ∧
    sumTo bigCounts 2 = 9223372036854775808 ∧
    (CleanTable (scriptedRepository bigScript) (scriptedRuntime bigScript) 2
        (eventsRequest maxInt) ScriptState.init).map
      (fun run => (run.err, run.result.map (fun r => (r.Status, r.RowsDeleted))))
      = some (none, some ("completed", -9223372036854775808)) := by
  refine ⟨by decide, fun _ _ => rfl, by decide, by decide, by decide, ?_⟩
  rfl

/-- C4, amended: let the request be valid, the table valid and the lock acquired, let the
`DeleteBatch` calls succeed with counts `c 0`, `c 1`, ... and let no cancellation fire.
If `c k` is the first count below the batch size `n` (each earlier one is `n` or more, so
a batch of exactly `n` does not end the loop), then with fuel for more than `k`
iterations `CleanTable` returns no error and a result with status `completed` and
`RowsDeleted` equal to `c 0 + ... + c k` in the arithmetic of a Go `int`, which is that
sum itself whenever the sum lies in the range of 64 bits. The gateway, which logs what it
receives, has received exactly one `ValidateTable` call, one `TryAcquireLock` call, the
`k + 1` `DeleteBatch` calls, each with the table name, the cutoff and the limit `n` of
the request, and one invocation of the release action, in this order; the script has
counted `k + 1` batch calls. (The claim counts calls from 1, the script from 0.) -/
theorem CleanTable_completed (sc : Script) (req : CleanupRequest) (c : Nat → Int)
    (k fuel : Nat)
    (hreq : req.Validate = none) (hv : sc.validate = none) (hl : sc.lock = (true, none))
    (hb : ∀ i ≤ k, sc.batches i = (c i, none))
    (hfull : ∀ i < k, req.BatchSize ≤ c i)
    (hp : ∀ i < k, sc.pauses i = none)
    (hshort : c k < req.BatchSize) (hfuel : k < fuel) :
    CleanTable (scriptedRepository sc).recording (scriptedRuntime sc).besideLog fuel req
        (ScriptState.init, [])
      = some ⟨some { TableName := req.TableName, RowsDeleted := wrapInt (sumTo c (k + 1)),
                      ElapsedTime := Since (sc.clock 1) (sc.clock 0), Status := "completed",
                      ErrorMessage := "" },
              none,
              [Call.ValidateTable req.TableName none, Call.TryAcquireLock req.TableName true none]
                ++ batchCalls req c (k + 1) ++ [Call.unlock],
              (⟨k + 1, k, 2, 1⟩,
               [Call.ValidateTable req.TableName none, Call.TryAcquireLock req.TableName true none]
                ++ batchCalls req c (k + 1) ++ [Call.unlock])⟩ ∧
    (-2 ^ 63 ≤ sumTo c (k + 1) → sumTo c (k + 1) < 2 ^ 63 →
      wrapInt (sumTo c (k + 1)) = sumTo c (k + 1)) := by
  refine ⟨?_, wrapInt_of_range _⟩
  obtain ⟨m, rfl⟩ : ∃ m, fuel = k + (m + 1) := ⟨fuel - k - 1, by omega⟩
  have hk : sc.batches k = (c k, none) := hb k (Nat.le_refl k)
  simp only [CleanTable, hreq, recording_ValidateTable, recording_TryAcquireLock, besideLog_Now,
    scripted_ValidateTable, scripted_TryAcquireLock, scripted_Now, hv, hl, ScriptState.init,
    Bool.not_true, Bool.false_eq_true, if_false]
  rw [deleteLoop_full_batches_logged sc req (sc.clock 0) k (m + 1) c 0 (inProgress req) _ _ _
      wrapInt_zero (by intro i hi; simpa using hb i (Nat.le_of_lt hi)) hfull
      (by intro i hi; simpa using hp i hi)]
  simp [deleteLoop, recording_DeleteBatch, besideLog_Now, scripted_DeleteBatch, scripted_Now, hk,
    hshort, sumTo_succ, batchCalls_succ, inProgress, wrapInt_wrapInt_add]

/-- C4, amended, at the table of 250 rows deleted by hundreds: batches of 100, 100 and
50, and a total of 250. -/
theorem CleanTable_completed_witness :
    ((eventsRequest 100).Validate = none ∧ drainScript.validate = none ∧
      drainScript.lock = (true, none) ∧
      (∀ i ≤ 2, drainScript.batches i = (drainCounts i, none)) ∧
      (∀ i < 2, (eventsRequest 100).BatchSize ≤ drainCounts i) ∧
      (∀ i < 2, drainScript.pauses i = none) ∧
      drainCounts 2 < (eventsRequest 100).BatchSize ∧ 2 < 5) ∧
    CleanTable (scriptedRepository drainScript).recording (scriptedRuntime drainScript).besideLog 5
        (eventsRequest 100) (ScriptState.init, [])
      = some ⟨some { TableName := "events", RowsDeleted := 250, ElapsedTime := 0,
                      Status := "completed", ErrorMessage := "" },
              none,
              [Call.ValidateTable "events" none, Call.TryAcquireLock "events" true none,
               Call.DeleteBatch "events" ⟨63808128000, 0⟩ 100 100 none,
               Call.DeleteBatch "events" ⟨63808128000, 0⟩ 100 100 none,
               Call.DeleteBatch "events" ⟨63808128000, 0⟩ 100 50 none,
               Call.unlock],
              (⟨3, 2, 2, 1⟩,
               [Call.ValidateTable "events" none, Call.TryAcquireLock "events" true none,
                Call.DeleteBatch "events" ⟨63808128000, 0⟩ 100 100 none,
                Call.DeleteBatch "events" ⟨63808128000, 0⟩ 100 100 none,
                Call.DeleteBatch "events" ⟨63808128000, 0⟩ 100 50 none,
                Call.unlock])⟩ :=
  ⟨⟨by decide, rfl, rfl, fun _ _ => rfl, by decide, fun _ _ => rfl, by decide, by decide⟩,
   (CleanTable_completed drainScript (eventsRequest 100) drainCounts 2 5 (by decide) rfl rfl
     (fun _ _ => rfl) (by decide) (fun _ _ => rfl) (by decide) (by decide)).1⟩

/-- What the failure branch of the loop returns: after `k` full batches and a failing
one the result has status `failed` and the text of the error, and `RowsDeleted` still
holds the 0 it was created with. -/
theorem CleanTable_failed (sc : Script) (req : CleanupRequest) (c : Nat → Int)
    (k fuel : Nat) (d : Int) (e : GoError)
    (hreq : req.Validate = none) (hv : sc.validate = none) (hl : sc.lock = (true, none))
    (hb : ∀ i < k, sc.batches i = (c i, none))
    (hfull : ∀ i < k, req.BatchSize ≤ c i)
    (hp : ∀ i < k, sc.pauses i = none)
    (hfail : sc.batches k = (d, some e)) (hfuel : k < fuel) :
    CleanTable (scriptedRepository sc) (scriptedRuntime sc) fuel req ScriptState.init
      = some ⟨some { TableName := req.TableName, RowsDeleted := 0,
                      ElapsedTime := Since (sc.clock 1) (sc.clock 0), Status := "failed",
                      ErrorMessage := e.Error },
              some (GoError.wrapError ("batch deletion failed: " ++ e.Error) e),
              [Call.ValidateTable req.TableName none, Call.TryAcquireLock req.TableName true none]
                ++ batchCalls req c k
                ++ [Call.DeleteBatch req.TableName req.BeforeDate req.BatchSize d (some e),
                    Call.unlock],
              ⟨k + 1, k, 2, 1⟩⟩ := by
  obtain ⟨m, rfl⟩ : ∃ m, fuel = k + (m + 1) := ⟨fuel - k - 1, by omega⟩
  rw [CleanTable_scripted_locked sc req _ hreq hv hl,
    deleteLoop_full_batches sc req (sc.clock 0) k (m + 1) c 0 (inProgress req) _ ⟨0, 0, 1, 0⟩
      wrapInt_zero (by intro i hi; simpa using hb i hi) hfull
      (by intro i hi; simpa using hp i hi)]
  simp [deleteLoop, scripted_DeleteBatch, scripted_Now, hfail, inProgress, Errorf_w]

/-- C5, the code at the failing input: batch size 2, a first batch of 2 rows, a second
batch that fails with `connection reset`. The run stops there with status `failed`, the
text of the error and a non-nil error, but reports `RowsDeleted = 0`, not the 2 rows
deleted so far. -/
theorem CleanTable_failed_loses_total :
    CleanTable (scriptedRepository failingScript) (scriptedRuntime failingScript) 2
        (eventsRequest 2) ScriptState.init
      = some ⟨some { TableName := "events", RowsDeleted := 0, ElapsedTime := 0,
                      Status := "failed", ErrorMessage := "connection reset" },
              some (GoError.wrapError "batch deletion failed: connection reset"
                (GoError.other "connection reset")),
              [Call.ValidateTable "events" none, Call.TryAcquireLock "events" true none,
               Call.DeleteBatch "events" ⟨63808128000, 0⟩ 2 2 none,
               Call.DeleteBatch "events" ⟨63808128000, 0⟩ 2 0
                 (some (GoError.other "connection reset")),
               Call.unlock],
              ⟨2, 1, 2, 1⟩⟩ := by
  rfl

/-- C6 as stated fails: with batch size `2^63 - 1`, two full batches of `2^63 - 1` rows
and the context done during the pause after the second, the run ends `canceled` with the
error of the context after the two calls, but the total is kept in a Go `int`:
`RowsDeleted` is `-2`, not the sum `2^64 - 2` of the two counts. -/
theorem CleanTable_canceled_wraps :
    (eventsRequest maxInt).Validate = none ∧
    (∀ i ≤ 1, bigCancelScript.batches i = ((fun _ => maxInt) i, none)) ∧
    (∀ i ≤ 1, (eventsRequest maxInt).BatchSize ≤ (fun _ => maxInt) i) ∧
    (∀ i < 1, bigCancelScript.pauses i = none) ∧
    bigCancelScript.pauses 1 = some (GoError.other "context canceled") ∧
    sumTo (fun _ => maxInt) 2 = 18446744073709551614 ∧
    (CleanTable (scriptedRepository bigCancelScript) (scriptedRuntime bigCancelScript) 2
        (eventsRequest maxInt) ScriptState.init).map
      (fun run => (run.err, run.result.map (fun r => (r.Status, r.RowsDeleted))))
      = some (some (GoError.other "context canceled"), some ("canceled", -2)) := by
  refine ⟨by decide, fun _ _ => rfl, by decide, by decide, rfl, by decide, ?_⟩
  rfl

/-- C6, amended: let the request be valid, the table valid and the lock acquired, let the
first `k + 1` `DeleteBatch` calls succeed with counts `c 0`, ..., `c k`, none below the
batch size, and let the context be done during the pause after the last of them (and not
before). Then with fuel for more than `k` iterations `CleanTable` returns the error of the
context and a result with status `canceled` and `RowsDeleted` equal to `c 0 + ... + c k`
in the arithmetic of a Go `int`, which is that sum itself whenever the sum lies in the
range of 64 bits; the gateway has received exactly these `k + 1` `DeleteBatch` calls,
followed by one invocation of the release action. -/
theorem CleanTable_canceled (sc : Script) (req : CleanupRequest) (c : Nat → Int)
    (k fuel : Nat) (ctxErr : GoError)
    (hreq : req.Validate = none) (hv : sc.validate = none) (hl : sc.lock = (true, none))
    (hb : ∀ i ≤ k, sc.batches i = (c i, none))
    (hfull : ∀ i ≤ k, req.BatchSize ≤ c i)
    (hp : ∀ i < k, sc.pauses i = none)
    (hdone : sc.pauses k = some ctxErr) (hfuel : k < fuel) :
    CleanTable (scriptedRepository sc).recording (scriptedRuntime sc).besideLog fuel req
        (ScriptState.init, [])
      = some ⟨some { TableName := req.TableName, RowsDeleted := wrapInt (sumTo c (k + 1)),
                      ElapsedTime := Since (sc.clock 1) (sc.clock 0), Status := "canceled",
                      ErrorMessage := "" },
              some ctxErr,
              [Call.ValidateTable req.TableName none, Call.TryAcquireLock req.TableName true none]
                ++ batchCalls req c (k + 1) ++ [Call.unlock],
              (⟨k + 1, k + 1, 2, 1⟩,
               [Call.ValidateTable req.TableName none, Call.TryAcquireLock req.TableName true none]
                ++ batchCalls req c (k + 1) ++ [Call.unlock])⟩ ∧
    (-2 ^ 63 ≤ sumTo c (k + 1) → sumTo c (k + 1) < 2 ^ 63 →
      wrapInt (sumTo c (k + 1)) = sumTo c (k + 1)) := by
  refine ⟨?_, wrapInt_of_range _⟩
  obtain ⟨m, rfl⟩ : ∃ m, fuel = k + (m + 1) := ⟨fuel - k - 1, by omega⟩
  have hk : sc.batches k = (c k, none) := hb k (Nat.le_refl k)
  have hck : ¬ c k < req.BatchSize := not_lt.mpr (hfull k (Nat.le_refl k))
  simp only [CleanTable, hreq, recording_ValidateTable, recording_TryAcquireLock, besideLog_Now,
    scripted_ValidateTable, scripted_TryAcquireLock, scripted_Now, hv, hl, ScriptState.init,
    Bool.not_true, Bool.false_eq_true, if_false]
  rw [deleteLoop_full_batches_logged sc req (sc.clock 0) k (m + 1) c 0 (inProgress req) _ _ _
      wrapInt_zero (by intro i hi; simpa using hb i (Nat.le_of_lt hi))
      (fun i hi => hfull i (Nat.le_of_lt hi))
      (by intro i hi; simpa using hp i hi)]
  simp [deleteLoop, recording_DeleteBatch, besideLog_Now, besideLog_Pause, scripted_DeleteBatch,
    scripted_Now, scripted_Pause, hk, hck, hdone, sumTo_succ, batchCalls_succ, inProgress,
    wrapInt_wrapInt_add]

/-- C6, amended, at two full batches of 100 rows and a context done during the second
pause: `canceled` with 200 rows. -/
theorem CleanTable_canceled_witness :
    ((eventsRequest 100).Validate = none ∧ cancelScript.validate = none ∧
      cancelScript.lock = (true, none) ∧
      (∀ i ≤ 1, cancelScript.batches i = ((fun _ => 100) i, none)) ∧
      (∀ i ≤ 1, (eventsRequest 100).BatchSize ≤ (fun _ => (100 : Int)) i) ∧
      (∀ i < 1, cancelScript.pauses i = none) ∧
      cancelScript.pauses 1 = some (GoError.other "context canceled") ∧ 1 < 5) ∧
    CleanTable (scriptedRepository cancelScript).recording (scriptedRuntime cancelScript).besideLog
        5 (eventsRequest 100) (ScriptState.init, [])
      = some ⟨some { TableName := "events", RowsDeleted := 200, ElapsedTime := 0,
                      Status := "canceled", ErrorMessage := "" },
              some (GoError.other "context canceled"),
              [Call.ValidateTable "events" none, Call.TryAcquireLock "events" true none,
               Call.DeleteBatch "events" ⟨63808128000, 0⟩ 100 100 none,
               Call.DeleteBatch "events" ⟨63808128000, 0⟩ 100 100 none,
               Call.unlock],
              (⟨2, 2, 2, 1⟩,
               [Call.ValidateTable "events" none, Call.TryAcquireLock "events" true none,
                Call.DeleteBatch "events" ⟨63808128000, 0⟩ 100 100 none,
                Call.DeleteBatch "events" ⟨63808128000, 0⟩ 100 100 none,
                Call.unlock])⟩ :=
  ⟨⟨by decide, rfl, rfl, fun _ _ => rfl, by decide, by decide, rfl, by decide⟩,
   (CleanTable_canceled cancelScript (eventsRequest 100) (fun _ => 100) 1 5
     (GoError.other "context canceled") (by decide) rfl rfl (fun _ _ => rfl) (by decide)
     (by decide) rfl (by decide)).1⟩

/-! ## The lock -/

/-- C7: for a valid request whose table passes `ValidateTable`, if `TryAcquireLock`
answers `acquired = false` with no error, then whatever the fuel `CleanTable` returns no
result and the error `another process is already cleaning table <name>`; its trace is
the `ValidateTable` call and one `TryAcquireLock` call, with no `DeleteBatch` call and no
release, and the world is the one the lock attempt left. -/
theorem CleanTable_lock_busy {σ : Type} (repo : CleanerRepository σ)
    (rt : Runtime σ) (fuel : Nat) (req : CleanupRequest) (s : σ)
    (hreq : req.Validate = none)
    (hv : (repo.ValidateTable req.TableName s).1 = none)
    (hacq : (repo.TryAcquireLock req.TableName (repo.ValidateTable req.TableName s).2).1.1 = false)
    (herr : (repo.TryAcquireLock req.TableName (repo.ValidateTable req.TableName s).2).1.2.2
      = none) :
    CleanTable repo rt fuel req s
      = some ⟨none,
              some (GoError.errorString
                ("another process is already cleaning table " ++ req.TableName)),
              [Call.ValidateTable req.TableName none, Call.TryAcquireLock req.TableName false none],
              (repo.TryAcquireLock req.TableName (repo.ValidateTable req.TableName s).2).2⟩ := by
  simp [CleanTable, hreq, hv, hacq, herr]

/-- C7 at a gateway whose lock is held by another run. -/
theorem CleanTable_lock_busy_witness :
    ((eventsRequest 100).Validate = none ∧ busyScript.validate = none ∧
      busyScript.lock = (false, none)) ∧
    CleanTable (scriptedRepository busyScript) (scriptedRuntime busyScript) 5
        (eventsRequest 100) ScriptState.init
      = some ⟨none,
              some (GoError.errorString
                ("another process is already cleaning table " ++ (eventsRequest 100).TableName)),
              [Call.ValidateTable (eventsRequest 100).TableName none,
               Call.TryAcquireLock (eventsRequest 100).TableName false none],
              ScriptState.init⟩ :=
  ⟨⟨by decide, rfl, rfl⟩,
   CleanTable_lock_busy (scriptedRepository busyScript) (scriptedRuntime busyScript) 5
     (eventsRequest 100) ScriptState.init (by decide) rfl rfl rfl⟩

/-- The loop only appends `DeleteBatch` entries, with the arguments of the request, to the
trace. -/
theorem deleteLoop_trace {σ : Type} (repo : CleanerRepository σ) (rt : Runtime σ)
    (req : CleanupRequest) (startTime : Int) (fuel : Nat) (total : Int)
    (result : CleanupResult) (tr : List Call) (s : σ) (run : Run σ)
    (h : deleteLoop repo rt req startTime fuel total result tr s = some run) :
    ∃ ext, run.trace = tr ++ ext ∧
      ∀ c ∈ ext, ∃ d e, c = Call.DeleteBatch req.TableName req.BeforeDate req.BatchSize d e := by
  induction fuel generalizing total tr s with
  | zero => simp [deleteLoop] at h
  | succ fuel ih =>
    rw [deleteLoop] at h
    simp only at h
    split at h
    · cases h
      exact ⟨[_], rfl, by simp⟩
    · split at h
      · cases h
        exact ⟨[_], rfl, by simp⟩
      · split at h
        · cases h
          exact ⟨[_], rfl, by simp⟩
        · obtain ⟨ext, hext, hall⟩ := ih _ _ _ h
          refine ⟨_ :: ext, by simpa using hext, ?_⟩
          intro c hc
          rcases List.mem_cons.1 hc with rfl | hc
          · exact ⟨_, _, rfl⟩
          · exact hall c hc

/-- In the trace of a run that returns, the release is the last entry and the only one of
its kind if the lock was acquired, and absent otherwise; only a run that has acquired the
lock can lack fuel. -/
theorem trace_unlock_once {σ : Type} (repo : CleanerRepository σ) (rt : Runtime σ)
    (fuel : Nat) (req : CleanupRequest) (s : σ) :
    (∀ run, CleanTable repo rt fuel req s = some run →
      (Call.TryAcquireLock req.TableName true none ∈ run.trace →
        run.trace.count Call.unlock = 1 ∧ run.trace.getLast? = some Call.unlock) ∧
      (Call.TryAcquireLock req.TableName true none ∉ run.trace →
        run.trace.count Call.unlock = 0)) ∧
    (CleanTable repo rt fuel req s = none →
      req.Validate = none ∧ (repo.ValidateTable req.TableName s).1 = none ∧
      (repo.TryAcquireLock req.TableName (repo.ValidateTable req.TableName s).2).1.1 = true ∧
      (repo.TryAcquireLock req.TableName (repo.ValidateTable req.TableName s).2).1.2.2
        = none) := by
  unfold CleanTable
  cases hreq : req.Validate with
  | some e => simp
  | none =>
    cases hv : (repo.ValidateTable req.TableName s).1 with
    | some e => simp [hv]
    | none =>
      cases herr : (repo.TryAcquireLock req.TableName
          (repo.ValidateTable req.TableName s).2).1.2.2 with
      | some e => simp [hv, herr]
      | none =>
        cases hacq : (repo.TryAcquireLock req.TableName
            (repo.ValidateTable req.TableName s).2).1.1 with
        | false => simp [hv, herr, hacq]
        | true =>
          simp only [hv, herr, hacq, Bool.not_true, Bool.false_eq_true, if_false, and_self,
            implies_true, and_true]
          intro run hrun
          split at hrun
          · cases hrun
          · rename_i inner hinner
            cases hrun
            obtain ⟨ext, hext, hall⟩ := deleteLoop_trace _ _ _ _ _ _ _ _ _ _ hinner
            have hno : Call.unlock ∉ ext := by
              intro hmem
              obtain ⟨d, e, hde⟩ := hall _ hmem
              cases hde
            have hlast : ∀ pre : List Call, (pre ++ [Call.unlock]).getLast? = some Call.unlock :=
              fun pre => by simp
            refine ⟨fun _ => ⟨?_, ?_⟩, fun hnot => absurd ?_ hnot⟩
            · simp [hext, List.count_eq_zero_of_not_mem hno]
            · show (inner.trace ++ [Call.unlock]).getLast? = some Call.unlock
              exact hlast _
            · show Call.TryAcquireLock req.TableName true none ∈ inner.trace ++ [Call.unlock]
              simp [hext]

/-- C8: for every gateway, clock, context, request and world, let the gateway log what it
receives, its release action logging `unlock` each time it is invoked. When a run of
`CleanTable` returns, that log is the returned trace, and the release action has been
invoked exactly once, as the last entry of the log and so after every `DeleteBatch` call
received, if `TryAcquireLock` answered `acquired = true` without error, whatever the
outcome of the loop; and it has not been invoked at all if the log has no such answer
(the request was invalid, `ValidateTable` or `TryAcquireLock` failed, or the lock was
held). A run is only cut short by lack of fuel inside the loop, with the lock acquired:
every run that does not acquire the lock returns. -/
theorem unlock_exactly_once {σ : Type} (repo : CleanerRepository σ) (rt : Runtime σ)
    (fuel : Nat) (req : CleanupRequest) (s : σ) :
    (∀ run, CleanTable repo.recording rt.besideLog fuel req (s, []) = some run →
      run.world.2 = run.trace ∧
      (Call.TryAcquireLock req.TableName true none ∈ run.world.2 →
        run.world.2.count Call.unlock = 1 ∧ run.world.2.getLast? = some Call.unlock) ∧
      (Call.TryAcquireLock req.TableName true none ∉ run.world.2 →
        run.world.2.count Call.unlock = 0)) ∧
    (CleanTable repo.recording rt.besideLog fuel req (s, []) = none →
      req.Validate = none ∧ (repo.ValidateTable req.TableName s).1 = none ∧
      (repo.TryAcquireLock req.TableName (repo.ValidateTable req.TableName s).2).1.1 = true ∧
      (repo.TryAcquireLock req.TableName (repo.ValidateTable req.TableName s).2).1.2.2
        = none) := by
  have hrec : CleanTable repo.recording rt.besideLog fuel req (s, [])
      = (CleanTable repo rt fuel req s).map (Run.withLog []) := by
    unfold CleanTable
    cases hreq : req.Validate with
    | some e => simp [Run.withLog]
    | none =>
      simp only [recording_ValidateTable, recording_TryAcquireLock, besideLog_Now]
      cases hv : (repo.ValidateTable req.TableName s).1 with
      | some e => simp [Run.withLog]
      | none =>
        simp only []
        cases herr : (repo.TryAcquireLock req.TableName
            (repo.ValidateTable req.TableName s).2).1.2.2 with
        | some e => simp [Run.withLog]
        | none =>
          simp only []
          cases hacq : (repo.TryAcquireLock req.TableName
              (repo.ValidateTable req.TableName s).2).1.1 with
          | false => simp [Run.withLog]
          | true =>
            simp only [Bool.not_true, Bool.false_eq_true, if_false, List.nil_append]
            have hloop := deleteLoop_recording repo rt req
              (rt.Now (repo.TryAcquireLock req.TableName
                (repo.ValidateTable req.TableName s).2).2).1 fuel 0 (inProgress req)
              ([Call.ValidateTable req.TableName none]
                ++ [Call.TryAcquireLock req.TableName true none])
              (rt.Now (repo.TryAcquireLock req.TableName
                (repo.ValidateTable req.TableName s).2).2).2 []
            simp only [List.nil_append] at hloop
            rw [hloop]
            cases deleteLoop repo rt req _ fuel 0 (inProgress req) _ _ with
            | none => rfl
            | some run => simp [Run.withLog]
  rw [hrec]
  obtain ⟨htrace, hfuel⟩ := trace_unlock_once repo rt fuel req s
  cases hrun : CleanTable repo rt fuel req s with
  | none =>
    refine ⟨fun run h => by simp at h, fun _ => hfuel hrun⟩
  | some run0 =>
    refine ⟨?_, fun h => by simp at h⟩
    intro run h
    simp only [Option.map_some', Option.some.injEq] at h
    subst h
    have hlog : (Run.withLog [] run0).world.2 = run0.trace := by simp [Run.withLog]
    rw [hlog]
    exact ⟨rfl, htrace run0 hrun⟩

/-- C8 at the run of 250 rows deleted by hundreds: the lock is acquired and the release
is the last entry of the log of the gateway and the only one of its kind. -/
theorem unlock_exactly_once_witness :
    ∃ run, CleanTable (scriptedRepository drainScript).recording
        (scriptedRuntime drainScript).besideLog 5 (eventsRequest 100) (ScriptState.init, [])
        = some run ∧
      Call.TryAcquireLock (eventsRequest 100).TableName true none ∈ run.world.2 ∧
      run.world.2.count Call.unlock = 1 ∧ run.world.2.getLast? = some Call.unlock :=
  ⟨_, rfl, by decide,
   ((unlock_exactly_once (scriptedRepository drainScript) (scriptedRuntime drainScript) 5
      (eventsRequest 100) ScriptState.init).1 _ rfl).2.1 (by decide)⟩

/-- C9: for a valid request, if the gateway's `ValidateTable` fails with `e`, then
whatever the fuel `CleanTable` returns no result and the error
`table validation failed: ` followed by the text of `e`, which wraps `e`; the trace is
that one `ValidateTable` call, so neither `TryAcquireLock` nor `DeleteBatch` is
called. -/
theorem CleanTable_validateTable_failed {σ : Type} (repo : CleanerRepository σ)
    (rt : Runtime σ) (fuel : Nat) (req : CleanupRequest) (s : σ) (e : GoError)
    (hreq : req.Validate = none)
    (hv : (repo.ValidateTable req.TableName s).1 = some e) :
    CleanTable repo rt fuel req s
      = some ⟨none, some (GoError.wrapError ("table validation failed: " ++ e.Error) e),
              [Call.ValidateTable req.TableName (some e)],
              (repo.ValidateTable req.TableName s).2⟩ := by
  simp [CleanTable, hreq, hv, Errorf_w]

/-- C9 at a gateway that reports a missing table. -/
theorem CleanTable_validateTable_failed_witness :
    ((eventsRequest 100).Validate = none ∧
      missingTableScript.validate = some (GoError.errorString "table events does not exist")) ∧
    CleanTable (scriptedRepository missingTableScript) (scriptedRuntime missingTableScript) 5
        (eventsRequest 100) ScriptState.init
      = some ⟨none,
              some (GoError.wrapError
                ("table validation failed: "
                  ++ (GoError.errorString "table events does not exist").Error)
                (GoError.errorString "table events does not exist")),
              [Call.ValidateTable (eventsRequest 100).TableName
                (some (GoError.errorString "table events does not exist"))],
              ScriptState.init⟩ :=
  ⟨⟨by decide, rfl⟩,
   CleanTable_validateTable_failed (scriptedRepository missingTableScript)
     (scriptedRuntime missingTableScript) 5 (eventsRequest 100) ScriptState.init
     (GoError.errorString "table events does not exist") (by decide) rfl⟩

/-! ## The task registry -/

theorem lookup_eq_none_iff_not_key (l : List (String × Nat)) (k : String) :
    l.lookup k = none ↔ ∀ p, (k, p) ∉ l := by
  induction l with
  | nil => simp
  | cons kv l ih =>
    obtain ⟨k2, p2⟩ := kv
    rw [List.lookup_cons]
    by_cases hk : k = k2
    · subst hk
      simp only [beq_self_eq_true, reduceCtorEq, false_iff, not_forall, not_not]
      exact ⟨p2, List.mem_cons_self _ _⟩
    · have hbeq : (k == k2) = false := by simpa using hk
      rw [hbeq, ih]
      constructor
      · intro h p hp
        rcases List.mem_cons.1 hp with heq | hmem
        · exact hk (Prod.mk.inj heq).1
        · exact h p hmem
      · intro h p hp
        exact h p (List.mem_cons_of_mem _ hp)

/-- C10: in a registry whose pointers are all allocated, `GetCleanupStatus` on an
identifier that is not a key (the lookup in the map fails) returns no result and the
error `task with ID <id> not found` and leaves the use case as it was; for a key the
lookup finds a record pointer, and with record pointer `p` the method returns a pointer `q` to an object equal to the stored record (equal
structures, so equal field for field), the map and every allocated object are as
before, `q` is none of the pointers of the registry, and assigning any value through `q`
leaves every record of the registry as it was. -/
theorem GetCleanupStatus_spec (uc : cleanerUseCase) (taskID : String) (halloc : uc.allocated) :
    ((∀ p, (taskID, p) ∉ uc.activeTasks) →
      GetCleanupStatus uc taskID
        = ((none, some (GoError.errorString ("task with ID " ++ taskID ++ " not found"))), uc)) ∧
    ((∃ p, (taskID, p) ∈ uc.activeTasks) → ∃ p, uc.activeTasks.lookup taskID = some p) ∧
    (∀ p, uc.activeTasks.lookup taskID = some p →
      ∃ q uc2, GetCleanupStatus uc taskID = ((some q, none), uc2) ∧
        uc2.heap q = uc.heap p ∧
        uc2.activeTasks = uc.activeTasks ∧
        (∀ a, a < uc.next → uc2.heap a = uc.heap a) ∧
        (∀ kv ∈ uc.activeTasks, kv.2 ≠ q) ∧
        (∀ v, ∀ kv ∈ uc.activeTasks, (uc2.assign q v).heap kv.2 = uc.heap kv.2)) := by
  refine ⟨?_, ?_, ?_⟩
  · intro hkey
    simp [GetCleanupStatus, (lookup_eq_none_iff_not_key _ _).2 hkey]
  · intro hkey
    cases hl : uc.activeTasks.lookup taskID with
    | some p => exact ⟨p, rfl⟩
    | none =>
      obtain ⟨p, hp⟩ := hkey
      exact absurd hp ((lookup_eq_none_iff_not_key _ _).1 hl p)
  · intro p hp
    refine ⟨uc.next,
      { uc with heap := Function.update uc.heap uc.next (uc.heap p), next := uc.next + 1 },
      by simp [GetCleanupStatus, hp], by simp, rfl, ?_, ?_, ?_⟩
    · intro a ha
      simp [Function.update, Nat.ne_of_lt ha]
    · intro kv hkv
      exact Nat.ne_of_lt (halloc kv hkv)
    · intro v kv hkv
      have hlt := halloc kv hkv
      simp [cleanerUseCase.assign, Function.update, Nat.ne_of_lt hlt]

/-- C10 at a registry with one task: the lookup of that task. -/
theorem GetCleanupStatus_spec_witness :
    sampleUseCase.allocated ∧
    ∃ q uc2, GetCleanupStatus sampleUseCase "task-1" = ((some q, none), uc2) ∧
      uc2.heap q = sampleUseCase.heap 0 ∧
      uc2.activeTasks = sampleUseCase.activeTasks ∧
      (∀ a, a < sampleUseCase.next → uc2.heap a = sampleUseCase.heap a) ∧
      (∀ kv ∈ sampleUseCase.activeTasks, kv.2 ≠ q) ∧
      (∀ v, ∀ kv ∈ sampleUseCase.activeTasks,
        (uc2.assign q v).heap kv.2 = sampleUseCase.heap kv.2) :=
  have halloc : sampleUseCase.allocated := by
    intro kv hkv
    simp [sampleUseCase] at hkv
    simp [hkv, sampleUseCase]
  ⟨halloc, (GetCleanupStatus_spec sampleUseCase "task-1" halloc).2.2 0 (by decide)⟩

/-! ## The asynchronous dispatcher -/

/-- An error of `Validate` is one of the three domain errors. -/
theorem Validate_domain (req : CleanupRequest) (e : GoError) (he : req.Validate = some e) :
    ∃ m, e = GoError.DomainError m := by
  unfold CleanupRequest.Validate at he
  split at he
  · exact ⟨_, (Option.some.inj he).symm⟩
  · split at he
    · exact ⟨_, (Option.some.inj he).symm⟩
    · split at he
      · exact ⟨_, (Option.some.inj he).symm⟩
      · cases he

theorem lookup_mapAssign_self (m : List (String × Nat)) (k : String) (p : Nat) :
    (mapAssign m k p).lookup k = some p := by
  simp [mapAssign, List.lookup_cons]

theorem lookup_filter_ne (m : List (String × Nat)) (k j : String) (h : j ≠ k) :
    (m.filter (fun kv => kv.1 != k)).lookup j = m.lookup j := by
  induction m with
  | nil => rfl
  | cons kv m ih =>
    obtain ⟨k2, p2⟩ := kv
    by_cases hk : k2 = k
    · subst hk
      have hj : (j == k2) = false := by simpa using h
      simp [List.filter_cons, List.lookup_cons, hj, ih]
    · have hk2 : (k2 != k) = true := by simpa using hk
      simp only [List.filter_cons, hk2, if_true, List.lookup_cons, ih]

theorem lookup_mapAssign_ne (m : List (String × Nat)) (k j : String) (p : Nat) (h : j ≠ k) :
    (mapAssign m k p).lookup j = m.lookup j := by
  have hj : (j == k) = false := by simpa using h
  simp [mapAssign, List.lookup_cons, hj, lookup_filter_ne m k j h]

theorem mapAssign_fresh (m : List (String × Nat)) (k : String) (p : Nat)
    (h : ∀ q, (k, q) ∉ m) : mapAssign m k p = (k, p) :: m := by
  unfold mapAssign
  congr 1
  rw [List.filter_eq_self]
  intro kv hkv
  obtain ⟨k2, p2⟩ := kv
  have : k2 ≠ k := by
    intro hk
    subst hk
    exact h p2 hkv
  simpa using this

/-! ## Terminal statuses -/

/-- The three ways the loop returns: completed without error; failed, with the error of
`DeleteBatch` wrapped and its text in the result; canceled, with the error of the
context. The table name of the result is never touched. -/
theorem deleteLoop_outcome {σ : Type} (repo : CleanerRepository σ) (rt : Runtime σ)
    (req : CleanupRequest) (startTime : Int) (fuel : Nat) (total : Int)
    (result : CleanupResult) (tr : List Call) (s : σ) (run : Run σ)
    (h : deleteLoop repo rt req startTime fuel total result tr s = some run) :
    ∃ r, run.result = some r ∧ r.TableName = result.TableName ∧
      ((r.Status = "completed" ∧ run.err = none) ∨
       (r.Status = "failed" ∧ r.RowsDeleted = result.RowsDeleted ∧
          ∃ e, run.err = some (GoError.wrapError ("batch deletion failed: " ++ e.Error) e) ∧
            r.ErrorMessage = e.Error) ∨
       (r.Status = "canceled" ∧ ∃ e, run.err = some e)) := by
  induction fuel generalizing total tr s with
  | zero => simp [deleteLoop] at h
  | succ fuel ih =>
    rw [deleteLoop] at h
    simp only at h
    split at h
    · cases h
      exact ⟨_, rfl, rfl, Or.inr (Or.inl ⟨rfl, rfl, _, rfl, rfl⟩)⟩
    · split at h
      · cases h
        exact ⟨_, rfl, rfl, Or.inl ⟨rfl, rfl⟩⟩
      · split at h
        · cases h
          exact ⟨_, rfl, rfl, Or.inr (Or.inr ⟨rfl, _, rfl⟩)⟩
        · exact ih _ _ _ h

/-- More fuel does not change a run that has returned. -/
theorem deleteLoop_fuel_mono {σ : Type} (repo : CleanerRepository σ) (rt : Runtime σ)
    (req : CleanupRequest) (startTime : Int) (fuel extra : Nat) (total : Int)
    (result : CleanupResult) (tr : List Call) (s : σ) (run : Run σ)
    (h : deleteLoop repo rt req startTime fuel total result tr s = some run) :
    deleteLoop repo rt req startTime (fuel + extra) total result tr s = some run := by
  induction fuel generalizing total tr s with
  | zero => simp [deleteLoop] at h
  | succ fuel ih =>
    have hf : fuel + 1 + extra = (fuel + extra) + 1 := by omega
    rw [hf, deleteLoop]
    rw [deleteLoop] at h
    simp only at h ⊢
    cases hE : (repo.DeleteBatch req.TableName req.BeforeDate req.BatchSize s).1.2 with
    | some e =>
      simp only [hE] at h ⊢
      exact h
    | none =>
      simp only [hE] at h ⊢
      by_cases hlt : (repo.DeleteBatch req.TableName req.BeforeDate req.BatchSize s).1.1
          < req.BatchSize
      · simp only [hlt, if_true] at h ⊢
        exact h
      · simp only [hlt, if_false] at h ⊢
        cases hP : (rt.Pause
            (repo.DeleteBatch req.TableName req.BeforeDate req.BatchSize s).2).1 with
        | some c =>
          simp only [hP] at h ⊢
          exact h
        | none =>
          simp only [hP] at h ⊢
          exact ih _ _ _ h

theorem CleanTable_fuel_mono {σ : Type} (repo : CleanerRepository σ) (rt : Runtime σ)
    (fuel extra : Nat) (req : CleanupRequest) (s : σ) (run : Run σ)
    (h : CleanTable repo rt fuel req s = some run) :
    CleanTable repo rt (fuel + extra) req s = some run := by
  unfold CleanTable at h ⊢
  cases hreq : req.Validate with
  | some e =>
    simp only [hreq] at h ⊢
    exact h
  | none =>
    simp only [hreq] at h ⊢
    cases hv : (repo.ValidateTable req.TableName s).1 with
    | some e =>
      simp only [hv] at h ⊢
      exact h
    | none =>
      simp only [hv] at h ⊢
      cases herr : (repo.TryAcquireLock req.TableName
          (repo.ValidateTable req.TableName s).2).1.2.2 with
      | some e =>
        simp only [herr] at h ⊢
        exact h
      | none =>
        simp only [herr] at h ⊢
        cases hacq : (repo.TryAcquireLock req.TableName
            (repo.ValidateTable req.TableName s).2).1.1 with
        | false =>
          simp only [hacq] at h ⊢
          exact h
        | true =>
          simp only [hacq, Bool.not_true, Bool.false_eq_true, if_false] at h ⊢
          split at h
          · cases h
          · rename_i inner hinner
            rw [deleteLoop_fuel_mono _ _ _ _ _ extra _ _ _ _ _ hinner]
            exact h

/-- The ways `CleanTable` returns: without a result and with an error before any
`DeleteBatch` call, or with the result of the loop. -/
theorem CleanTable_outcome {σ : Type} (repo : CleanerRepository σ) (rt : Runtime σ)
    (fuel : Nat) (req : CleanupRequest) (s : σ) (run : Run σ)
    (h : CleanTable repo rt fuel req s = some run) :
    (run.result = none ∧ (∃ e, run.err = some e) ∧
      ∀ t d n m e, Call.DeleteBatch t d n m e ∉ run.trace) ∨
    (∃ r, run.result = some r ∧ r.TableName = req.TableName ∧
      ((r.Status = "completed" ∧ run.err = none) ∨
       (r.Status = "failed" ∧ r.RowsDeleted = 0 ∧
          ∃ e, run.err = some (GoError.wrapError ("batch deletion failed: " ++ e.Error) e) ∧
            r.ErrorMessage = e.Error) ∨
       (r.Status = "canceled" ∧ ∃ e, run.err = some e))) := by
  unfold CleanTable at h
  cases hreq : req.Validate with
  | some e =>
    simp only [hreq] at h
    cases h
    exact Or.inl ⟨rfl, ⟨_, rfl⟩, by simp⟩
  | none =>
    simp only [hreq] at h
    cases hv : (repo.ValidateTable req.TableName s).1 with
    | some e =>
      simp only [hv] at h
      cases h
      exact Or.inl ⟨rfl, ⟨_, rfl⟩, by simp⟩
    | none =>
      simp only [hv] at h
      cases herr : (repo.TryAcquireLock req.TableName
          (repo.ValidateTable req.TableName s).2).1.2.2 with
      | some e =>
        simp only [herr] at h
        cases h
        exact Or.inl ⟨rfl, ⟨_, rfl⟩, by simp⟩
      | none =>
        simp only [herr] at h
        cases hacq : (repo.TryAcquireLock req.TableName
            (repo.ValidateTable req.TableName s).2).1.1 with
        | false =>
          simp only [hacq] at h
          cases h
          exact Or.inl ⟨rfl, ⟨_, rfl⟩, by simp⟩
        | true =>
          simp only [hacq, Bool.not_true, Bool.false_eq_true, if_false] at h
          split at h
          · cases h
          · rename_i inner hinner
            cases h
            exact Or.inr (deleteLoop_outcome _ _ _ _ _ _ _ _ _ _ hinner)

/-- C15: for every request, gateway, clock, context and world, a run of `CleanTable`
that returns has either no result and a non-nil error, with no `DeleteBatch` call in its
trace, or a result whose status is one of `completed`, `failed`, `canceled`, and so
neither `pending` nor `in_progress`, with the error absent exactly when the status is
`completed`; it never has both no result and no error; and the run is the same with any
larger fuel, so the status reached does not depend on the bound. -/
theorem CleanTable_terminal_status {σ : Type} (repo : CleanerRepository σ) (rt : Runtime σ)
    (fuel : Nat) (req : CleanupRequest) (s : σ) (run : Run σ)
    (hrun : CleanTable repo rt fuel req s = some run) :
    ((run.result = none ∧ run.err ≠ none ∧
        ∀ t d n m e, Call.DeleteBatch t d n m e ∉ run.trace) ∨
     (∃ r, run.result = some r ∧
        (r.Status = "completed" ∨ r.Status = "failed" ∨ r.Status = "canceled") ∧
        r.Status ≠ "pending" ∧ r.Status ≠ "in_progress" ∧
        (run.err = none ↔ r.Status = "completed"))) ∧
    ¬ (run.result = none ∧ run.err = none) ∧
    (∀ fuel2, fuel ≤ fuel2 → CleanTable repo rt fuel2 req s = some run) := by
  refine ⟨?_, ?_, ?_⟩
  · rcases CleanTable_outcome repo rt fuel req s run hrun with
      ⟨hres, ⟨e, he⟩, htr⟩ | ⟨r, hres, _, hst⟩
    · exact Or.inl ⟨hres, by simp [he], htr⟩
    · refine Or.inr ⟨r, hres, ?_⟩
      rcases hst with ⟨hs, he⟩ | ⟨hs, _, e, he, _⟩ | ⟨hs, e, he⟩
      · simp [hs, he]
      · simp [hs, he]
      · simp [hs, he]
  · rcases CleanTable_outcome repo rt fuel req s run hrun with
      ⟨_, ⟨e, he⟩, _⟩ | ⟨r, hres, _⟩
    · simp [he]
    · simp [hres]
  · intro fuel2 hle
    obtain ⟨extra, rfl⟩ : ∃ extra, fuel2 = fuel + extra := ⟨fuel2 - fuel, by omega⟩
    exact CleanTable_fuel_mono repo rt fuel extra req s run hrun

/-- C12, amended: for every outcome of the engine run made by the goroutine of
`StartAsyncCleanup`, the update of the task record does not panic and touches only that
record. If the engine returns no result (the request, the table validation, the lock
acquisition or the lock contention failed) the record keeps its other fields and gets
status `failed` and the text of the returned error as its message. If the engine returns
a result the record becomes exactly that result: a canceled run is recorded as
`canceled` with its count, and a run whose batch delete failed is recorded with the
message of the result, which is the text of the error of `DeleteBatch`, while the
returned error is that text behind `batch deletion failed: `. -/
theorem cleanupGoroutine_records {σ : Type} (repo : CleanerRepository σ) (rt : Runtime σ)
    (fuel : Nat) (req : CleanupRequest) (result : Nat) (uc : cleanerUseCase) (s : σ)
    (out : Option cleanerUseCase × Run σ)
    (hout : cleanupGoroutine repo rt fuel req result uc s = some out) :
    CleanTable repo rt fuel req s = some out.2 ∧
    ∃ uc2, out.1 = some uc2 ∧ uc2.activeTasks = uc.activeTasks ∧ uc2.next = uc.next ∧
      (∀ a, a ≠ result → uc2.heap a = uc.heap a) ∧
      (out.2.result = none →
        ∃ e, out.2.err = some e ∧
          uc2.heap result
            = { uc.heap result with Status := "failed", ErrorMessage := e.Error }) ∧
      (∀ r, out.2.result = some r →
        uc2.heap result = r ∧
        (r.Status = "canceled" → out.2.err ≠ none) ∧
        (r.Status = "failed" →
          ∃ e, out.2.err = some (GoError.wrapError ("batch deletion failed: " ++ e.Error) e) ∧
            r.ErrorMessage = e.Error)) := by
  unfold cleanupGoroutine at hout
  simp only at hout
  split at hout
  · cases hout
  · rename_i run hrun
    cases hout
    refine ⟨hrun, ?_⟩
    rcases CleanTable_outcome repo rt fuel req s run hrun with
      ⟨hres, ⟨e, he⟩, _⟩ | ⟨r, hres, _, hst⟩
    · refine ⟨(uc.assign result { uc.heap result with Status := "in_progress" }).assign result
          { uc.heap result with Status := "failed", ErrorMessage := e.Error },
        ?_, rfl, rfl, ?_, ?_, ?_⟩
      · simp [hres, he, recordOutcome, cleanerUseCase.assign]
      · intro a ha
        simp [cleanerUseCase.assign, Function.update, ha]
      · intro _
        exact ⟨e, he, by simp [cleanerUseCase.assign]⟩
      · intro r hr
        have hr2 : run.result = some r := hr
        rw [hres] at hr2
        cases hr2
    · refine ⟨(uc.assign result { uc.heap result with Status := "in_progress" }).assign result r,
        ?_, rfl, rfl, ?_, ?_, ?_⟩
      · simp only [hres]
        cases run.err <;> rfl
      · intro a ha
        simp [cleanerUseCase.assign, Function.update, ha]
      · intro hnone
        have hn2 : run.result = none := hnone
        rw [hres] at hn2
        cases hn2
      · intro r2 hr
        have hr2 : run.result = some r2 := hr
        rw [hres] at hr2
        cases hr2
        refine ⟨by simp [cleanerUseCase.assign], ?_, ?_⟩
        · intro hs
          rcases hst with ⟨hc, _⟩ | ⟨hf, _⟩ | ⟨_, e, he⟩
          · rw [hc] at hs; exact absurd hs (by decide)
          · rw [hf] at hs; exact absurd hs (by decide)
          · show run.err ≠ none
            simp [he]
        · intro hs
          rcases hst with ⟨hc, _⟩ | ⟨_, _, e, he, hm⟩ | ⟨hc, _⟩
          · rw [hc] at hs; exact absurd hs (by decide)
          · exact ⟨e, he, hm⟩
          · rw [hc] at hs; exact absurd hs (by decide)

/-- C15 at the run canceled after two batches. -/
theorem CleanTable_terminal_status_witness :
    ∃ run, CleanTable (scriptedRepository cancelScript) (scriptedRuntime cancelScript) 5
        (eventsRequest 100) ScriptState.init = some run ∧
      ((run.result = none ∧ run.err ≠ none ∧
          ∀ t d n m e, Call.DeleteBatch t d n m e ∉ run.trace) ∨
       (∃ r, run.result = some r ∧
          (r.Status = "completed" ∨ r.Status = "failed" ∨ r.Status = "canceled") ∧
          r.Status ≠ "pending" ∧ r.Status ≠ "in_progress" ∧
          (run.err = none ↔ r.Status = "completed"))) ∧
      ¬ (run.result = none ∧ run.err = none) ∧
      (∀ fuel2, 5 ≤ fuel2 →
        CleanTable (scriptedRepository cancelScript) (scriptedRuntime cancelScript) fuel2
          (eventsRequest 100) ScriptState.init = some run) :=
  ⟨_, rfl,
   CleanTable_terminal_status (scriptedRepository cancelScript) (scriptedRuntime cancelScript) 5
     (eventsRequest 100) ScriptState.init _ rfl⟩

/-- C12 as stated fails: for the task that `StartAsyncCleanup` registers at address 1,
with a first batch of 2 rows and a second batch failing with `connection reset`, the
record ends with status `failed` and the message `connection reset`, while the text of
the error that the engine returns is `batch deletion failed: connection reset`. -/
theorem cleanupGoroutine_message_differs :
    (StartAsyncCleanup sampleUseCase "task-2" (eventsRequest 2)).goroutine = some 1 ∧
    (cleanupGoroutine (scriptedRepository failingScript) (scriptedRuntime failingScript) 2
        (eventsRequest 2) 1 startedUseCase ScriptState.init).map
      (fun out => (out.1.map (fun uc2 => ((uc2.heap 1).Status, (uc2.heap 1).ErrorMessage)),
                   out.2.err.map GoError.Error))
      = some (some ("failed", "connection reset"),
              some "batch deletion failed: connection reset") := by
  constructor
  · rfl
  · rfl

/-- C12, amended, at the run canceled after two batches of 100 rows: the record is the
result of the engine, `canceled` with 200 rows. -/
theorem cleanupGoroutine_records_witness :
    ∃ out, cleanupGoroutine (scriptedRepository cancelScript) (scriptedRuntime cancelScript) 5
        (eventsRequest 100) 1 startedUseCase ScriptState.init = some out ∧
      ∃ uc2, out.1 = some uc2 ∧ (uc2.heap 1).Status = "canceled" ∧
        (uc2.heap 1).RowsDeleted = 200 :=
  ⟨_, rfl,
   by
    obtain ⟨_, uc2, h1, _, _, _, _, h2⟩ :=
      cleanupGoroutine_records (scriptedRepository cancelScript) (scriptedRuntime cancelScript) 5
        (eventsRequest 100) 1 startedUseCase ScriptState.init _ rfl
    refine ⟨uc2, h1, ?_, ?_⟩
    · rw [(h2 _ rfl).1]
    · rw [(h2 _ rfl).1]
      rfl⟩

/-! ## The registry when `StartAsyncCleanup` returns -/

/-- C11 as stated fails: the goroutine that `StartAsyncCleanup` launches runs beside the
caller, and its first statement sets the status without taking the mutex; when it has
run that far by the time the method returns, the record of the new task `task-2` has
status `in_progress`, not `pending`. -/
theorem StartAsyncCleanup_in_progress_at_return :
    (eventsRequest 2).Validate = none ∧
    (StartAsyncCleanup sampleUseCase "task-2" (eventsRequest 2)).taskID = "task-2" ∧
    ((StartAsyncCleanup sampleUseCase "task-2" (eventsRequest 2)).atReturn
        (scriptedRepository failingScript) (scriptedRuntime failingScript) 2 (eventsRequest 2)
        Progress.running ScriptState.init).map
      (fun uc => (uc.activeTasks.lookup "task-2").map (fun p => (uc.heap p).Status))
      = some (some "in_progress") := by
  refine ⟨by decide, rfl, ?_⟩
  rfl

/-- C11, amended: `StartAsyncCleanup` on a request that fails `Validate` returns that
error, a `DomainError`, with the empty identifier, launches no goroutine, and the caller
finds the use case as it was. On a request that passes `Validate` it returns the new
identifier with no error and launches the goroutine; its own statements map the
identifier to a new record with the table name of the request, status `pending`, zero
rows deleted and no error message, replacing the entry of that identifier if there was
one, so that every other identifier maps as before, every object allocated before is
unchanged, and the map is the old map with that one entry added when the identifier is
new. What the caller finds at the return is that state advanced by the goroutine: the
map and all other objects are the same, the record has the table name of the request,
and it is the `pending` record if the goroutine has not run, the same record with status
`in_progress` if the goroutine has made its first write, and a record with status
`completed`, `failed` or `canceled` if the goroutine has already finished. -/
theorem StartAsyncCleanup_spec (uc : cleanerUseCase) (newUUID : String) (req : CleanupRequest) :
    (∀ e, req.Validate = some e →
      (∃ m, e = GoError.DomainError m) ∧
      StartAsyncCleanup uc newUUID req = ⟨"", some e, uc, none⟩ ∧
      ∀ (σ : Type) (repo : CleanerRepository σ) (rt : Runtime σ) (fuel : Nat)
        (progress : Progress) (s : σ),
        (StartAsyncCleanup uc newUUID req).atReturn repo rt fuel req progress s = some uc) ∧
    (req.Validate = none →
      ∃ uc2 p, StartAsyncCleanup uc newUUID req = ⟨newUUID, none, uc2, some p⟩ ∧
        uc2.activeTasks = mapAssign uc.activeTasks newUUID p ∧
        uc2.activeTasks.lookup newUUID = some p ∧
        uc2.heap p = { TableName := req.TableName, RowsDeleted := 0, ElapsedTime := 0,
                       Status := "pending", ErrorMessage := "" } ∧
        (∀ k, k ≠ newUUID → uc2.activeTasks.lookup k = uc.activeTasks.lookup k) ∧
        (∀ a, a < uc.next → uc2.heap a = uc.heap a) ∧
        (uc.allocated → uc2.allocated ∧ ∀ kv ∈ uc.activeTasks, kv.2 ≠ p) ∧
        ((∀ q, (newUUID, q) ∉ uc.activeTasks) →
          uc2.activeTasks = (newUUID, p) :: uc.activeTasks) ∧
        ∀ (σ : Type) (repo : CleanerRepository σ) (rt : Runtime σ) (fuel : Nat) (s : σ),
          (StartAsyncCleanup uc newUUID req).atReturn repo rt fuel req Progress.launched s
            = some uc2 ∧
          (StartAsyncCleanup uc newUUID req).atReturn repo rt fuel req Progress.running s
            = some (uc2.assign p { uc2.heap p with Status := "in_progress" }) ∧
          ((CleanTable repo rt fuel req s).isSome →
            ((StartAsyncCleanup uc newUUID req).atReturn repo rt fuel req
              Progress.finished s).isSome) ∧
          ∀ progress uc3,
            (StartAsyncCleanup uc newUUID req).atReturn repo rt fuel req progress s = some uc3 →
            uc3.activeTasks = uc2.activeTasks ∧
            (∀ a, a ≠ p → uc3.heap a = uc2.heap a) ∧
            (uc3.heap p).TableName = req.TableName ∧
            (progress = Progress.launched → (uc3.heap p).Status = "pending") ∧
            (progress = Progress.running → (uc3.heap p).Status = "in_progress") ∧
            (progress = Progress.finished →
              (uc3.heap p).Status = "completed" ∨ (uc3.heap p).Status = "failed" ∨
              (uc3.heap p).Status = "canceled")) := by
  constructor
  · intro e he
    refine ⟨Validate_domain req e he, by simp [StartAsyncCleanup, he], ?_⟩
    intro σ repo rt fuel progress s
    simp [StartAsyncCleanup, he, AsyncStart.atReturn]
  · intro hreq
    have hstart : StartAsyncCleanup uc newUUID req
        = ⟨newUUID, none,
           { heap := Function.update uc.heap uc.next
               { TableName := req.TableName, RowsDeleted := 0, ElapsedTime := 0,
                 Status := "pending", ErrorMessage := "" },
             next := uc.next + 1,
             activeTasks := mapAssign uc.activeTasks newUUID uc.next },
           some uc.next⟩ := by
      simp only [StartAsyncCleanup, hreq]
    refine ⟨_, uc.next, hstart, rfl, ?_, by simp, ?_, ?_, ?_, ?_, ?_⟩
    · exact lookup_mapAssign_self _ _ _
    · intro k hk
      exact lookup_mapAssign_ne _ _ _ _ hk
    · intro a ha
      simp [Function.update, Nat.ne_of_lt ha]
    · intro halloc
      refine ⟨?_, fun kv hkv => Nat.ne_of_lt (halloc kv hkv)⟩
      intro kv hkv
      simp only [mapAssign, List.mem_cons, List.mem_filter] at hkv
      rcases hkv with rfl | ⟨hmem, _⟩
      · exact Nat.lt_succ_self _
      · exact Nat.lt_succ_of_lt (halloc kv hmem)
    · intro hfresh
      exact mapAssign_fresh _ _ _ hfresh
    · intro σ repo rt fuel s
      rw [hstart]
      refine ⟨rfl, rfl, ?_, ?_⟩
      · intro hsome
        obtain ⟨run, hrun⟩ := Option.isSome_iff_exists.1 hsome
        simp only [AsyncStart.atReturn, cleanupGoroutine, hrun]
        rcases CleanTable_outcome repo rt fuel req s run hrun with
          ⟨hres, ⟨e, he⟩, _⟩ | ⟨r, hres, _, _⟩
        · simp [hres, he, recordOutcome]
        · rw [hres]
          cases run.err <;> simp [recordOutcome]
      · intro progress uc3 h3
        cases progress with
        | launched =>
          simp only [AsyncStart.atReturn, Option.some.injEq] at h3
          subst h3
          simp
        | running =>
          simp only [AsyncStart.atReturn, Option.some.injEq] at h3
          subst h3
          refine ⟨rfl, ?_, by simp [cleanerUseCase.assign], by simp,
            by simp [cleanerUseCase.assign], by simp⟩
          intro a ha
          simp [cleanerUseCase.assign, Function.update, ha]
        | finished =>
          simp only [AsyncStart.atReturn, cleanupGoroutine] at h3
          cases hrun : CleanTable repo rt fuel req s with
          | none => simp [hrun] at h3
          | some run =>
            simp only [hrun] at h3
            rcases CleanTable_outcome repo rt fuel req s run hrun with
              ⟨hres, ⟨e, he⟩, _⟩ | ⟨r, hres, hname, hst⟩
            · simp only [hres, he, recordOutcome, Option.some.injEq] at h3
              subst h3
              refine ⟨rfl, ?_, by simp [cleanerUseCase.assign], by simp, by simp,
                fun _ => Or.inr (Or.inl (by simp [cleanerUseCase.assign]))⟩
              intro a ha
              simp [cleanerUseCase.assign, Function.update, ha]
            · rw [hres] at h3
              have h5 : ∀ (u : cleanerUseCase) (o : Option GoError),
                  recordOutcome u uc.next (some r) o = some (u.assign uc.next r) := by
                intro u o
                cases o <;> rfl
              rw [h5] at h3
              simp only [Option.some.injEq] at h3
              subst h3
              refine ⟨rfl, ?_, by simp [cleanerUseCase.assign, hname], by simp, by simp, ?_⟩
              · intro a ha
                simp [cleanerUseCase.assign, Function.update, ha]
              · intro _
                simp only [cleanerUseCase.assign, Function.update_same]
                rcases hst with ⟨h, _⟩ | ⟨h, _⟩ | ⟨h, _⟩
                · exact Or.inl h
                · exact Or.inr (Or.inl h)
                · exact Or.inr (Or.inr h)

/-- C11, amended, at a registry with one task and the new identifier `task-2`. -/
theorem StartAsyncCleanup_spec_witness :
    (eventsRequest 2).Validate = none ∧
    ∃ uc2 p, StartAsyncCleanup sampleUseCase "task-2" (eventsRequest 2)
        = ⟨"task-2", none, uc2, some p⟩ ∧
      uc2.heap p = { TableName := (eventsRequest 2).TableName, RowsDeleted := 0,
                     ElapsedTime := 0, Status := "pending", ErrorMessage := "" } ∧
      uc2.activeTasks = ("task-2", p) :: sampleUseCase.activeTasks ∧
      (StartAsyncCleanup sampleUseCase "task-2" (eventsRequest 2)).atReturn
          (scriptedRepository failingScript) (scriptedRuntime failingScript) 2 (eventsRequest 2)
          Progress.running ScriptState.init
        = some (uc2.assign p { uc2.heap p with Status := "in_progress" }) := by
  obtain ⟨uc2, p, h1, _, _, h3, _, _, _, h7, h8⟩ :=
    (StartAsyncCleanup_spec sampleUseCase "task-2" (eventsRequest 2)).2 (by decide)
  exact ⟨by decide, uc2, p, h1, h3, h7 (by simp [sampleUseCase]),
    (h8 ScriptState (scriptedRepository failingScript) (scriptedRuntime failingScript) 2
      ScriptState.init).2.1⟩

/-! ## The synchronous handler -/

/-- C13 as stated fails: with the lock of the table held, the error that `CleanTable`
returns is no `DomainError`, and `HandleCleanup` answers 500 `Internal server error`. -/
theorem HandleCleanup_lock_busy_is_500 :
    (∃ run, CleanTable (scriptedRepository busyScript) (scriptedRuntime busyScript) 5
        (eventsRequest 100) ScriptState.init = some run ∧
      run.err.map GoError.isDomainError = some false) ∧
    HandleCleanup (scriptedRepository busyScript) (scriptedRuntime busyScript) 5
        (some (eventsRequest 100)) ScriptState.init
      = some (⟨500, Payload.error "Internal server error"⟩, ScriptState.init) := by
  constructor
  · exact ⟨_, rfl, rfl⟩
  · rfl

/-- C13, amended: for a request valid after the defaults of the handler whose table
passes `ValidateTable`, if `TryAcquireLock` answers `acquired = false` with no error,
then `CleanTable` returns no result and the plain error
`another process is already cleaning table <name>` built by `fmt.Errorf`, which is not
an `entities.DomainError`; so the error branching of `HandleCleanup` answers with the
internal-fault status 500 and the body `Internal server error`, not with 400. -/
theorem HandleCleanup_lock_busy {σ : Type} (repo : CleanerRepository σ) (rt : Runtime σ)
    (fuel : Nat) (body : CleanupRequest) (s : σ)
    (hreq : (applyDefaults body).Validate = none)
    (hv : (repo.ValidateTable body.TableName s).1 = none)
    (hacq : (repo.TryAcquireLock body.TableName (repo.ValidateTable body.TableName s).2).1.1
      = false)
    (herr : (repo.TryAcquireLock body.TableName (repo.ValidateTable body.TableName s).2).1.2.2
      = none) :
    (∃ run, CleanTable repo rt fuel (applyDefaults body) s = some run ∧
      run.result = none ∧
      run.err = some (GoError.errorString
        ("another process is already cleaning table " ++ body.TableName)) ∧
      (∀ m, run.err ≠ some (GoError.DomainError m))) ∧
    HandleCleanup repo rt fuel (some body) s
      = some (⟨StatusInternalServerError, Payload.error "Internal server error"⟩,
              (repo.TryAcquireLock body.TableName (repo.ValidateTable body.TableName s).2).2) := by
  have hname : (applyDefaults body).TableName = body.TableName := by
    unfold applyDefaults
    split <;> rfl
  have hrun : CleanTable repo rt fuel (applyDefaults body) s
      = some ⟨none,
              some (GoError.errorString
                ("another process is already cleaning table " ++ body.TableName)),
              [Call.ValidateTable body.TableName none,
               Call.TryAcquireLock body.TableName false none],
              (repo.TryAcquireLock body.TableName (repo.ValidateTable body.TableName s).2).2⟩ := by
    simp [CleanTable, hreq, hname, hv, hacq, herr]
  constructor
  · exact ⟨_, hrun, rfl, rfl, by simp⟩
  · simp [HandleCleanup, hrun, GoError.isDomainError]

/-- C13, amended, at a request with batch size 0 (5000 by default) and a held lock. -/
theorem HandleCleanup_lock_busy_witness :
    ((applyDefaults (eventsRequest 0)).Validate = none ∧ busyScript.validate = none ∧
      busyScript.lock = (false, none)) ∧
    HandleCleanup (scriptedRepository busyScript) (scriptedRuntime busyScript) 5
        (some (eventsRequest 0)) ScriptState.init
      = some (⟨StatusInternalServerError, Payload.error "Internal server error"⟩,
              ScriptState.init) :=
  ⟨⟨by decide, rfl, rfl⟩,
   (HandleCleanup_lock_busy (scriptedRepository busyScript) (scriptedRuntime busyScript) 5
     (eventsRequest 0) ScriptState.init (by decide) rfl rfl rfl).2⟩

/-! ## A table of rows -/

theorem table_DeleteBatch (t : String) (d : Time) (limit : Int) (w : TableWorld) :
    tableRepository.DeleteBatch t d limit w
      = ((((min limit.toNat w.rows : Nat) : Int), none),
          { w with rows := w.rows - min limit.toNat w.rows }) := rfl

theorem quiet_Now (σ : Type) (s : σ) : (quietRuntime σ).Now s = (0, s) := rfl

theorem quiet_Pause (σ : Type) (s : σ) : (quietRuntime σ).Pause s = (none, s) := rfl

theorem tableBatches_lt (n m : Nat) (h : m < n) : tableBatches n m = [(m : Int)] := by
  simp [tableBatches, Nat.div_eq_of_lt h, Nat.mod_eq_of_lt h]

theorem tableBatches_ge (n m : Nat) (hn : 0 < n) (h : n ≤ m) :
    tableBatches n m = (n : Int) :: tableBatches n (m - n) := by
  simp [tableBatches, Nat.div_eq_sub_div hn h, Nat.mod_eq_sub_mod h, List.replicate_succ]

/-- The loop against the table: `m / n` full batches and a last short one empty it. -/
theorem deleteLoop_table (req : CleanupRequest) (n : Nat) (hn : 0 < n)
    (hB : req.BatchSize = (n : Int)) (startTime : Int) (m : Nat) :
    ∀ (extra : Nat) (total : Int) (result : CleanupResult) (tr : List Call) (held : Bool),
      deleteLoop tableRepository (quietRuntime TableWorld) req startTime (m / n + 1 + extra)
          total result tr ⟨m, held⟩
        = some ⟨some { result with Status := "completed", RowsDeleted := wrapInt (total + m),
                                   ElapsedTime := Since 0 startTime },
                none,
                tr ++ (tableBatches n m).map
                  (fun d => Call.DeleteBatch req.TableName req.BeforeDate req.BatchSize d none),
                ⟨0, held⟩⟩ := by
  induction m using Nat.strong_induction_on with
  | _ m ih =>
    intro extra total result tr held
    by_cases hlt : m < n
    · have hfuel : m / n + 1 + extra = extra + 1 := by
        rw [Nat.div_eq_of_lt hlt]; omega
      have hmin : min n m = m := Nat.min_eq_right (Nat.le_of_lt hlt)
      have hlt2 : (m : Int) < (n : Int) := by exact_mod_cast hlt
      rw [hfuel, deleteLoop]
      simp [table_DeleteBatch, hB, hmin, hlt2, quiet_Now, tableBatches_lt n m hlt]
    · have hge : n ≤ m := Nat.le_of_not_lt hlt
      have hfuel : m / n + 1 + extra = ((m - n) / n + 1 + extra) + 1 := by
        rw [Nat.div_eq_sub_div hn hge]
        generalize (m - n) / n = q
        omega
      have hmin : min n m = n := Nat.min_eq_left hge
      rw [hfuel, deleteLoop]
      simp only [table_DeleteBatch, hB, Int.toNat_ofNat, hmin, lt_self_iff_false, if_false,
        quiet_Pause]
      rw [ih (m - n) (by omega), wrapInt_wrapInt_add]
      simp [tableBatches_ge n m hn hge, add_assoc, Nat.cast_sub hge, hB]

/-- C14 as stated fails: against a table of `2^63` rows and with batch size `2^63 - 1` the
run ends `completed` after the two batches and empties the table, but the total is kept
in a Go `int`: `RowsDeleted` is `-2^63`, not the `2^63` rows deleted. -/
theorem CleanTable_drains_table_wraps :
    (eventsRequest maxInt).Validate = none ∧
    (CleanTable tableRepository (quietRuntime TableWorld) 2 (eventsRequest maxInt)
        ⟨9223372036854775808, false⟩).map
      (fun run => (run.err, run.result.map (fun r => (r.Status, r.RowsDeleted)), run.world,
                   run.trace.length))
      = some (none, some ("completed", -9223372036854775808), ⟨0, false⟩, 5) := by
  refine ⟨by decide, ?_⟩
  rfl

/-- The run of C14 against the table gateway itself. -/
theorem CleanTable_drains_table_run (req : CleanupRequest) (n m fuel : Nat)
    (hreq : req.Validate = none) (hB : req.BatchSize = (n : Int)) (hfuel : m / n < fuel) :
    CleanTable tableRepository (quietRuntime TableWorld) fuel req ⟨m, false⟩
      = some ⟨some { TableName := req.TableName, RowsDeleted := wrapInt m, ElapsedTime := 0,
                      Status := "completed", ErrorMessage := "" },
              none,
              [Call.ValidateTable req.TableName none, Call.TryAcquireLock req.TableName true none]
                ++ (tableBatches n m).map
                    (fun d => Call.DeleteBatch req.TableName req.BeforeDate req.BatchSize d none)
                ++ [Call.unlock],
              ⟨0, false⟩⟩ := by
  have hn : 0 < n := by
    have hpos : ¬ req.BatchSize ≤ 0 := by
      intro hle
      unfold CleanupRequest.Validate at hreq
      split at hreq
      · cases hreq
      · split at hreq
        · cases hreq
        · simp [hle] at hreq
    rw [hB] at hpos
    omega
  obtain ⟨extra, rfl⟩ : ∃ extra, fuel = m / n + 1 + extra := ⟨fuel - (m / n + 1), by omega⟩
  simp only [CleanTable, hreq, tableRepository, Bool.false_eq_true, if_false, Bool.not_true,
    quiet_Now]
  have hloop := deleteLoop_table req n hn hB 0 m extra 0 (inProgress req)
    ([Call.ValidateTable req.TableName none]
      ++ [Call.TryAcquireLock req.TableName true none]) true
  simp only [tableRepository] at hloop
  rw [hloop]
  have hsince : Since 0 0 = 0 := by decide
  simp [inProgress, hsince]

/-- C14, amended: against a table of `m` matching rows whose gateway never fails and
removes `min(n, rows remaining)` rows at each `DeleteBatch`, with no cancellation and the
lock free, `CleanTable` with a valid request of batch size `n` and fuel for more than
`m / n` iterations returns status `completed`, no error and `RowsDeleted` equal to `m` in
the arithmetic of a Go `int`, which is `m` itself for `m < 2^63`, and leaves the table
empty and the lock free. The gateway, which logs what it receives, has received, between
the lock attempt and the one invocation of the release action, `m / n` `DeleteBatch`
calls that removed `n` rows and a last one that removed `m % n` rows: `m / n + 1` calls
that sum to `m`; for `m < n` that is the single batch of `m` rows, and when `n` divides
`m` the last batch deletes zero rows. -/
theorem CleanTable_drains_table (req : CleanupRequest) (n m fuel : Nat)
    (hreq : req.Validate = none) (hB : req.BatchSize = (n : Int)) (hfuel : m / n < fuel) :
    CleanTable tableRepository.recording (quietRuntime TableWorld).besideLog fuel req
        (⟨m, false⟩, [])
      = some ⟨some { TableName := req.TableName, RowsDeleted := wrapInt m, ElapsedTime := 0,
                      Status := "completed", ErrorMessage := "" },
              none,
              [Call.ValidateTable req.TableName none, Call.TryAcquireLock req.TableName true none]
                ++ (tableBatches n m).map
                    (fun d => Call.DeleteBatch req.TableName req.BeforeDate req.BatchSize d none)
                ++ [Call.unlock],
              (⟨0, false⟩,
               [Call.ValidateTable req.TableName none, Call.TryAcquireLock req.TableName true none]
                ++ (tableBatches n m).map
                    (fun d => Call.DeleteBatch req.TableName req.BeforeDate req.BatchSize d none)
                ++ [Call.unlock])⟩ ∧
    (m < 2 ^ 63 → wrapInt m = m) ∧
    (tableBatches n m).length = m / n + 1 ∧
    (tableBatches n m).sum = m ∧
    (m < n → tableBatches n m = [(m : Int)]) ∧
    (n ∣ m → (tableBatches n m).getLast? = some 0) := by
  refine ⟨?_, ?_, ?_, ?_, ?_, ?_⟩
  · have hrec : ∀ {σ : Type} (repo : CleanerRepository σ) (rt : Runtime σ) (s : σ),
        CleanTable repo.recording rt.besideLog fuel req (s, [])
          = (CleanTable repo rt fuel req s).map (Run.withLog []) := by
      intro σ repo rt s
      unfold CleanTable
      cases hreq : req.Validate with
      | some e => simp [Run.withLog]
      | none =>
        simp only [recording_ValidateTable, recording_TryAcquireLock, besideLog_Now]
        cases hv : (repo.ValidateTable req.TableName s).1 with
        | some e => simp [Run.withLog]
        | none =>
          simp only []
          cases herr : (repo.TryAcquireLock req.TableName
              (repo.ValidateTable req.TableName s).2).1.2.2 with
          | some e => simp [Run.withLog]
          | none =>
            simp only []
            cases hacq : (repo.TryAcquireLock req.TableName
                (repo.ValidateTable req.TableName s).2).1.1 with
            | false => simp [Run.withLog]
            | true =>
              simp only [Bool.not_true, Bool.false_eq_true, if_false, List.nil_append]
              have hloop := deleteLoop_recording repo rt req
                (rt.Now (repo.TryAcquireLock req.TableName
                  (repo.ValidateTable req.TableName s).2).2).1 fuel 0 (inProgress req)
                ([Call.ValidateTable req.TableName none]
                  ++ [Call.TryAcquireLock req.TableName true none])
                (rt.Now (repo.TryAcquireLock req.TableName
                  (repo.ValidateTable req.TableName s).2).2).2 []
              simp only [List.nil_append] at hloop
              rw [hloop]
              cases deleteLoop repo rt req _ fuel 0 (inProgress req) _ _ with
              | none => rfl
              | some run => simp [Run.withLog]
    rw [hrec, CleanTable_drains_table_run req n m fuel hreq hB hfuel]
    rfl
  · intro hm
    apply wrapInt_of_range
    · have : (0 : Int) ≤ (m : Int) := Int.ofNat_nonneg m
      omega
    · exact_mod_cast hm
  · simp [tableBatches]
  · simp only [tableBatches, List.sum_append, List.sum_replicate, List.sum_singleton, smul_eq_mul]
    have := Nat.div_add_mod m n
    have h2 : ((m / n : Nat) : Int) * (n : Int) + ((m % n : Nat) : Int) = (m : Int) := by
      rw [mul_comm]
      exact_mod_cast this
    exact h2
  · exact tableBatches_lt n m
  · intro hdvd
    simp [tableBatches, Nat.mod_eq_zero_of_dvd hdvd]

/-- C14, amended, at 250 rows and batch size 100: batches of 100, 100 and 50 rows. -/
theorem CleanTable_drains_table_witness :
    ((eventsRequest 100).Validate = none ∧ (eventsRequest 100).BatchSize = ((100 : Nat) : Int) ∧
      250 / 100 < 3) ∧
    CleanTable tableRepository.recording (quietRuntime TableWorld).besideLog 3
        (eventsRequest 100) (⟨250, false⟩, [])
      = some ⟨some { TableName := "events", RowsDeleted := 250, ElapsedTime := 0,
                      Status := "completed", ErrorMessage := "" },
              none,
              [Call.ValidateTable "events" none, Call.TryAcquireLock "events" true none,
               Call.DeleteBatch "events" ⟨63808128000, 0⟩ 100 100 none,
               Call.DeleteBatch "events" ⟨63808128000, 0⟩ 100 100 none,
               Call.DeleteBatch "events" ⟨63808128000, 0⟩ 100 50 none,
               Call.unlock],
              (⟨0, false⟩,
               [Call.ValidateTable "events" none, Call.TryAcquireLock "events" true none,
                Call.DeleteBatch "events" ⟨63808128000, 0⟩ 100 100 none,
                Call.DeleteBatch "events" ⟨63808128000, 0⟩ 100 100 none,
                Call.DeleteBatch "events" ⟨63808128000, 0⟩ 100 50 none,
                Call.unlock])⟩ :=
  ⟨⟨by decide, rfl, by decide⟩,
   (CleanTable_drains_table (eventsRequest 100) 100 250 3 (by decide) rfl (by decide)).1⟩

end DataCleaner
